import Mathlib

/-!
Shallow embedding of the `mcp_memory` request-dispatch gateway and its
memory / link record stores (source: `src/mcp_memory/`).

Conventions of the embedding:
* Python strings are Lean `String`s; character-level operations
  (comma-splitting, ASCII lowercasing, substring search) are defined over
  `List Char` so that they compute and admit induction.
* ISO-8601 UTC timestamp strings are modelled as `Int` seconds; the SQL
  string comparison `BETWEEN` on such timestamps is order-isomorphic to
  `≤` on the integers, and `datetime.replace(hour=0, ...)` becomes
  truncation to a multiple of 86400.
* The SQLite tables are lists of row structures; `AUTOINCREMENT` ids come
  from a `next_id` counter.  The FTS5 virtual tables are separate row
  lists; their availability (creation may have failed) is an explicit
  `ftsOk : Bool` argument, and the `MATCH` semantics of a present index is
  an abstract predicate argument, `none` standing for the
  `sqlite3.OperationalError` path (index absent or query form rejected).
* Fallible Python code returns `Except String`; the error strings mirror
  the exception messages of the source.
-/

/-! ### Character-level string helpers -/

/-- ASCII lowering of a character list (SQLite `LIKE` / `str.lower` on the
ASCII needles used by the source). -/
def lowerL (s : List Char) : List Char := s.map Char.toLower

/-- Check that `needle` is a prefix of `hay` (character lists). -/
def isPrefixL : List Char → List Char → Bool
  | [], _ => true
  | _ :: _, [] => false
  | a :: as, b :: bs => a = b && isPrefixL as bs

/-- Check that `needle` occurs as a contiguous sublist of `hay`. -/
def containsL (needle : List Char) : List Char → Bool
  | [] => isPrefixL needle []
  | c :: rest => isPrefixL needle (c :: rest) || containsL needle rest

/-- Python `s.strip()`: drop leading and trailing whitespace (defined at the
character level so that it computes in the kernel). -/
def pyStrip (s : String) : String :=
  String.mk (((s.toList.dropWhile Char.isWhitespace).reverse.dropWhile
    Char.isWhitespace).reverse)

/-- Python `needle in hay.lower()` for an (already lowercase) ASCII needle. -/
def hasSub (needle hay : String) : Bool := containsL needle.toList (lowerL hay.toList)

/-- All suffixes of a character list, longest first, ending with `[]`. -/
def suffixes : List Char → List (List Char)
  | [] => [[]]
  | c :: ts => (c :: ts) :: suffixes ts

/-- SQLite `LIKE` pattern matching over (already case-folded) character
lists: `%` matches any sequence of characters (via the suffixes of the
text), `_` matches exactly one character, anything else matches itself. -/
def likeMatch : List Char → List Char → Bool
  | [], t => t.isEmpty
  | p :: ps, t =>
    if p = '%' then (suffixes t).any (fun s => likeMatch ps s)
    else
      match t with
      | [] => false
      | c :: ts => if p = '_' then likeMatch ps ts else (p = c && likeMatch ps ts)

/-- SQLite `hay LIKE '%' || needle || '%'` (default ASCII-case-insensitive
matching): both sides are case-folded and the bound pattern is the query
wrapped in `%`, so `%` and `_` characters **inside the query** act as
wildcards. -/
def sqlLike (needle hay : String) : Bool :=
  likeMatch ('%' :: (lowerL needle.toList ++ ['%'])) (lowerL hay.toList)

/-- A literal case-insensitive substring test — what the spec's words "a
case-insensitive substring scan" describe.  It agrees with `sqlLike`
exactly when the query contains no `%` or `_` wildcard. -/
def substrMatch (needle hay : String) : Bool :=
  containsL (lowerL needle.toList) (lowerL hay.toList)

/-- Python `s.split(",")` at the character level: every occurrence of the
comma separates, empty pieces are kept (`"".split(",") == [""]`). -/
def splitC : List Char → List (List Char)
  | [] => [[]]
  | c :: rest =>
    if c = ',' then [] :: splitC rest
    else
      match splitC rest with
      | [] => [[c]]
      | h :: t => (c :: h) :: t

/-- Python `",".join(pieces)` at the character level. -/
def joinC : List (List Char) → List Char
  | [] => []
  | [t] => t
  | t :: ts => t ++ ',' :: joinC ts

/-- Python `s.split(",")` on strings. -/
def pySplitComma (s : String) : List String := (splitC s.toList).map String.mk

/-- Python `",".join(ts)` on strings. -/
def pyJoinComma (ts : List String) : String := String.mk (joinC (ts.map String.toList))

/-- Python `",".join(tags) if tags else None` (`memory/tools.py` lines 22, 30, 85):
`None` and the empty list are falsy, any non-empty list is joined. -/
def pyTagsJoin (tags : Option (List String)) : Option String :=
  match tags with
  | none => none
  | some ts => if ts = [] then none else some (pyJoinComma ts)

/-- Python `context or None` (`memory/tools.py` line 21): an empty string
collapses to `NULL`. -/
def pyOrNone (c : Option String) : Option String :=
  match c with
  | none => none
  | some s => if s = "" then none else some s

/-- Row-to-dict tag deserialization, `r["tags"].split(",") if r["tags"] else []`
(`memory/tools.py` line 50 and the analogous link readers). -/
def tagsOfCol (c : Option String) : List String :=
  match c with
  | none => []
  | some s => if s = "" then [] else pySplitComma s

/-! ### Field validation (`validation.py`) -/

def MAX_CONTENT_LEN : Nat := 10000
def MAX_CONTEXT_LEN : Nat := 512
def MAX_TAGS : Nat := 20
def MAX_TAG_LEN : Nat := 64

/-- `validate_memory_fields(content, tags, context)` (`validation.py` lines
9-27).  The `isinstance` checks are type-level in the embedding; the check
order (content, then context, then tags, first offending tag wins) and the
error messages mirror the source. -/
def validate_memory_fields (content : Option String) (tags : Option (List String))
    (context : Option String) : Except String Unit :=
  match content with
  | some c =>
    if pyStrip c = "" then .error "content must be a non-empty string"
    else if c.length > MAX_CONTENT_LEN then .error "content exceeds 10000 characters"
    else validateContextTags tags context
  | none => validateContextTags tags context
where
  validateContextTags (tags : Option (List String)) (context : Option String) :
      Except String Unit :=
    match context with
    | some cx =>
      if cx.length > MAX_CONTEXT_LEN then .error "context exceeds 512 characters"
      else validateTags tags
    | none => validateTags tags
  validateTags (tags : Option (List String)) : Except String Unit :=
    match tags with
    | some ts =>
      if ts.length > MAX_TAGS then .error "too many tags (max 20)"
      else
        match ts.find? (fun t => t.length > MAX_TAG_LEN) with
        | some t => .error ("tag " ++ t.take 10 ++ "... exceeds 64 characters")
        | none => .ok ()
    | none => .ok ()

/-! ### Memory record store (`memory/repository.py`, `memory/tools.py`) -/

/-- One row of the `memories` table. -/
structure MemoryRow where
  id : Nat
  user_scope : String
  content : String
  context : Option String
  tags : Option String
  created_at : Int
  updated_at : Int
deriving DecidableEq

/-- One row of the `memories_fts` FTS5 virtual table. -/
structure FtsRow where
  rowid : Nat
  content : String
  context : String
  tags : String
  user_scope : String
deriving DecidableEq

/-- The memory-domain database state. -/
structure MemDB where
  rows : List MemoryRow
  fts : List FtsRow
  next_id : Nat
deriving DecidableEq

/-- An item of a `memory_list` / `memory_query` result (`row_to_dict`). -/
structure MemItem where
  id : Nat
  content : String
  context : Option String
  tags : List String
  created_at : Int
  updated_at : Int
deriving DecidableEq

def memRowToItem (r : MemoryRow) : MemItem :=
  ⟨r.id, r.content, r.context, tagsOfCol r.tags, r.created_at, r.updated_at⟩

/-- `ORDER BY id DESC`. -/
def orderByIdDescM (rows : List MemoryRow) : List MemoryRow :=
  List.insertionSort (fun a b => b.id ≤ a.id) rows

/-- `fts_upsert` (`memory/repository.py` lines 52-64): `INSERT ... ON
CONFLICT(rowid) DO UPDATE`; `context or ""` and `tags or ""` turn the
nullable columns into empty strings.  `ftsOk = false` is the
`sqlite3.OperationalError` branch (FTS not enabled): the index is left
unchanged. -/
def fts_upsert (ftsOk : Bool) (fts : List FtsRow) (rowid : Nat) (content : String)
    (context : Option String) (tags : Option String) (user_scope : String) :
    List FtsRow :=
  if ftsOk then
    if fts.any (fun f => f.rowid = rowid) then
      fts.map (fun f =>
        if f.rowid = rowid then ⟨rowid, content, context.getD "", tags.getD "", user_scope⟩
        else f)
    else fts ++ [⟨rowid, content, context.getD "", tags.getD "", user_scope⟩]
  else fts

/-- `fts_delete` (`memory/repository.py` lines 67-75), best-effort. -/
def fts_delete (ftsOk : Bool) (fts : List FtsRow) (rowid : Nat) : List FtsRow :=
  if ftsOk then fts.filter (fun f => !decide (f.rowid = rowid)) else fts

/-- `tool_memory_store` (`memory/tools.py` lines 12-32): validation first,
then the base-table insert (fresh autoincrement id), then the best-effort
FTS sync.  `now` stands for the two `now_iso()` calls. -/
def tool_memory_store (db : MemDB) (user_scope : String) (content : String)
    (tags : Option (List String)) (context : Option String) (now : Int)
    (ftsOk : Bool) : Except String (MemDB × Nat) :=
  match validate_memory_fields (some content) tags context with
  | .error e => .error e
  | .ok _ =>
    let row : MemoryRow :=
      ⟨db.next_id, user_scope, content, pyOrNone context, pyTagsJoin tags, now, now⟩
    let fts2 := fts_upsert ftsOk db.fts db.next_id content context (pyTagsJoin tags) user_scope
    .ok (⟨db.rows ++ [row], fts2, db.next_id + 1⟩, db.next_id)

/-- `tool_memory_list` (`memory/tools.py` lines 35-55):
`WHERE user_scope = ? ORDER BY id DESC LIMIT ? OFFSET ?`. -/
def tool_memory_list (db : MemDB) (user_scope : String) (lim off : Nat) :
    List MemItem :=
  (((orderByIdDescM (db.rows.filter (fun r => decide (r.user_scope = user_scope)))).drop
      off).take lim).map memRowToItem

/-- `tool_memory_delete` (`memory/tools.py` lines 58-70): scope-filtered
delete; the FTS purge runs only when a row was deleted and is best-effort. -/
def tool_memory_delete (db : MemDB) (user_scope : String) (memory_id : Nat)
    (ftsOk : Bool) : MemDB × Nat :=
  let hit := fun (r : MemoryRow) => decide (r.id = memory_id ∧ r.user_scope = user_scope)
  let deleted := db.rows.countP hit
  let rows2 := db.rows.filter (fun r => !hit r)
  let fts2 := if deleted > 0 then fts_delete ftsOk db.fts memory_id else db.fts
  (⟨rows2, fts2, db.next_id⟩, deleted)

/-- The `SET` clause of `tool_memory_update`: overwrite exactly the
provided fields, and always `updated_at`. -/
def memApplyUpdate (content : Option String) (tags : Option (List String))
    (context : Option String) (now : Int) (r : MemoryRow) : MemoryRow :=
  { r with
    content := content.getD r.content
    context := match context with | some c => some c | none => r.context
    tags := match tags with | some ts => pyTagsJoin (some ts) | none => r.tags
    updated_at := now }

/-- `tool_memory_update` (`memory/tools.py` lines 73-104): validation first;
`UPDATE ... SET <provided fields>, updated_at WHERE id = ? AND user_scope = ?`;
on a positive rowcount the fresh row is re-fetched and FTS-synced.  Note the
asymmetry with store: an update stores `context` verbatim (an empty string
stays an empty string), while tags go through the comma-join-or-NULL. -/
def tool_memory_update (db : MemDB) (user_scope : String) (memory_id : Nat)
    (content : Option String) (tags : Option (List String))
    (context : Option String) (now : Int) (ftsOk : Bool) :
    Except String (MemDB × Nat) :=
  match validate_memory_fields content tags context with
  | .error e => .error e
  | .ok _ =>
    let hit := fun (r : MemoryRow) => decide (r.id = memory_id ∧ r.user_scope = user_scope)
    let app := memApplyUpdate content tags context now
    let updated := db.rows.countP hit
    let rows2 := db.rows.map (fun r => if hit r then app r else r)
    let fts2 :=
      if updated > 0 then
        match rows2.find? hit with
        | some r => fts_upsert ftsOk db.fts memory_id r.content r.context r.tags user_scope
        | none => db.fts
      else db.fts
    .ok (⟨rows2, fts2, db.next_id⟩, updated)

/-! ### Time hints and queries (`memory/tools.py` lines 107-202) -/

/-- Truncate a UTC timestamp to midnight
(`now.replace(hour=0, minute=0, second=0, microsecond=0)`). -/
def midnightOf (t : Int) : Int := t - t % 86400

/-- `_parse_time_hints` (`memory/tools.py` lines 107-124).  The query is
lowercased; precedence is "last week", then "yesterday", then "today". -/
def parse_time_hints (query : String) (now : Int) : Option (Int × Int) :=
  let q := lowerL query.toList
  if containsL "last week".toList q then
    some (now - 7 * 86400, now)
  else if containsL "yesterday".toList q then
    let s := midnightOf (now - 86400)
    some (s, s + 86400)
  else if containsL "today".toList q then
    let s := midnightOf now
    some (s, s + 86400)
  else none

/-- `created_at BETWEEN ? AND ?` — SQL `BETWEEN` is inclusive at both ends. -/
def inWindow (tr : Option (Int × Int)) (t : Int) : Bool :=
  match tr with
  | none => true
  | some (s, e) => decide (s ≤ t ∧ t ≤ e)

/-- The fallback text predicate of `tool_memory_query`:
`content LIKE ? OR ifnull(context,'') LIKE ? OR ifnull(tags,'') LIKE ?`
with pattern `%query%`. -/
def memLike (query : String) (r : MemoryRow) : Bool :=
  sqlLike query r.content || sqlLike query (r.context.getD "") ||
    sqlLike query (r.tags.getD "")

/-- The spec-worded counterpart of `memLike`: a literal case-insensitive
substring test over the same three fields. -/
def memSubstr (query : String) (r : MemoryRow) : Bool :=
  substrMatch query r.content || substrMatch query (r.context.getD "") ||
    substrMatch query (r.tags.getD "")

/-- `tool_memory_query` (`memory/tools.py` lines 127-202).  `backend = some m`
is the FTS5 path with `MATCH` semantics `m`; `backend = none` is the
`sqlite3.OperationalError` fallback (index absent or the query form was
rejected), a scope-filtered substring scan.  Both paths AND the optional
`created_at` window, order by descending id, apply the limit and project
through `row_to_dict`. -/
def tool_memory_query (db : MemDB) (backend : Option (FtsRow → String → Bool))
    (user_scope query : String) (lim : Nat) (now : Int) : List MemItem :=
  let tr := parse_time_hints query now
  match backend with
  | some mfn =>
    let joined := db.rows.flatMap (fun m =>
      if decide (m.user_scope = user_scope) && inWindow tr m.created_at then
        (db.fts.filter (fun f => decide (f.rowid = m.id) && mfn f query)).map (fun _ => m)
      else [])
    ((orderByIdDescM joined).take lim).map memRowToItem
  | none =>
    ((orderByIdDescM (db.rows.filter (fun r =>
        decide (r.user_scope = user_scope) && inWindow tr r.created_at &&
          memLike query r))).take lim).map memRowToItem

/-- Stated from the spec's words, for comparison with the code's fallback
path: "a case-insensitive substring scan over the same fields with the same
ordering and limit" (the derived time window of the memory query applies to
the scan as to the index path).  It uses the literal substring predicate
`memSubstr`, not the code's `LIKE` predicate. -/
def spec_substring_scan_memory (db : MemDB) (user_scope query : String)
    (lim : Nat) (now : Int) : List MemItem :=
  ((orderByIdDescM (db.rows.filter (fun r =>
      decide (r.user_scope = user_scope) &&
        inWindow (parse_time_hints query now) r.created_at &&
        memSubstr query r))).take lim).map memRowToItem

/-! ### Link record store (`linkbrain/repository.py`, `linkbrain/tools.py`) -/

/-- One row of the `links` table. -/
structure LinkRow where
  id : Nat
  user_scope : String
  url : String
  title : Option String
  byline : Option String
  site_name : Option String
  tags : Option String
  content : Option String
  word_count : Nat
  reading_minutes : Nat
  created_at : Int
  updated_at : Int
  summary : Option String
  summary_updated_at : Option Int
deriving DecidableEq

/-- One row of the `links_fts` FTS5 virtual table. -/
structure LinkFtsRow where
  rowid : Nat
  title : String
  byline : String
  site_name : String
  tags : String
  content : String
  user_scope : String
deriving DecidableEq

/-- The link-domain database state. -/
structure LinkDB where
  rows : List LinkRow
  fts : List LinkFtsRow
  next_id : Nat
deriving DecidableEq

/-- The black-box collaborator result `extract(html, url) -> fields`
(`linkbrain/parsing.py`, out of scope per the spec). -/
structure Extracted where
  title : Option String
  byline : Option String
  site_name : Option String
  content : Option String
deriving DecidableEq

/-- `count_words` (`linkbrain/parsing.py`): the number of maximal runs of
`\w` characters (ASCII approximation of the regex class). -/
def countWordsL : List Char → Bool → Nat
  | [], _ => 0
  | c :: rest, inw =>
    if c.isAlphanum || c = '_' then (if inw then 0 else 1) + countWordsL rest true
    else countWordsL rest false

def count_words (s : String) : Nat := countWordsL s.toList false

/-- `estimate_reading_minutes` (`linkbrain/parsing.py`): `max(1, ceil(wc/200))`. -/
def estimate_reading_minutes (word_count : Nat) : Nat :=
  max 1 ((word_count + 199) / 200)

/-- `tags_to_str` (`linkbrain/parsing.py`): falsy tags give `None`; otherwise
blank tags are dropped, the rest stripped and comma-joined, and an empty
join collapses to `None`. -/
def tags_to_str (tags : Option (List String)) : Option String :=
  match tags with
  | none => none
  | some ts =>
    if ts = [] then none
    else
      let s := pyJoinComma ((ts.filter (fun t => t ≠ "" && pyStrip t ≠ "")).map pyStrip)
      if s = "" then none else some s

/-- Python `a or b` on optional strings (`title_hint or extracted["title"]`). -/
def pyOrStr (a b : Option String) : Option String :=
  match a with
  | some s => if s = "" then b else some s
  | none => b

/-- `fts_link_upsert` (`linkbrain/repository.py` lines 71-83). -/
def fts_link_upsert (ftsOk : Bool) (fts : List LinkFtsRow) (rowid : Nat)
    (title byline site_name tags content user_scope : String) : List LinkFtsRow :=
  if ftsOk then
    if fts.any (fun f => f.rowid = rowid) then
      fts.map (fun f =>
        if f.rowid = rowid then ⟨rowid, title, byline, site_name, tags, content, user_scope⟩
        else f)
    else fts ++ [⟨rowid, title, byline, site_name, tags, content, user_scope⟩]
  else fts

/-- `fts_link_delete` (`linkbrain/repository.py` lines 86-94). -/
def fts_link_delete (ftsOk : Bool) (fts : List LinkFtsRow) (rowid : Nat) :
    List LinkFtsRow :=
  if ftsOk then fts.filter (fun f => !decide (f.rowid = rowid)) else fts

/-- The match predicate of the `links` unique constraint `(user_scope, url)`. -/
def linkKeyHit (user_scope url : String) (r : LinkRow) : Bool :=
  decide (r.user_scope = user_scope ∧ r.url = url)

/-- The `DO UPDATE SET` half of the `tool_link_save` upsert: overwrite the
content fields and `updated_at`, preserve `id`, `created_at`, the key and
the summary columns. -/
def linkOverwrite (title byline site_name : Option String) (tags : Option String)
    (content : String) (word_count reading_minutes : Nat) (now : Int)
    (r : LinkRow) : LinkRow :=
  { r with
    title := title
    byline := byline
    site_name := site_name
    tags := tags
    content := some content
    word_count := word_count
    reading_minutes := reading_minutes
    updated_at := now }

/-- `tool_link_save` (`linkbrain/tools.py` lines 13-75).  `fetch_html` and
`extract_readable_fields` are the out-of-scope collaborators; their result
is the `ext` argument.  The SQL `INSERT ... ON CONFLICT(user_scope, url)
DO UPDATE` either appends a fresh row or overwrites the conflicting row's
content fields in place; the returned id is re-selected by `(user_scope,
url)` afterwards. -/
def tool_link_save (db : LinkDB) (user_scope url : String)
    (tags : Option (List String)) (title_hint : Option String) (ext : Extracted)
    (now : Int) (ftsOk : Bool) : Except String (LinkDB × Option Nat) :=
  if url = "" then .error "url is required"
  else
    let title := pyOrStr title_hint ext.title
    let content := (ext.content.getD "")
    let word_count := count_words content
    let reading_minutes := estimate_reading_minutes word_count
    let tagsCol := tags_to_str tags
    let ow := linkOverwrite title ext.byline ext.site_name tagsCol content
      word_count reading_minutes now
    let conflict := db.rows.any (linkKeyHit user_scope url)
    let rows2 :=
      if conflict then db.rows.map (fun r => if linkKeyHit user_scope url r then ow r else r)
      else db.rows ++ [⟨db.next_id, user_scope, url, title, ext.byline, ext.site_name,
        tagsCol, some content, word_count, reading_minutes, now, now, none, none⟩]
    let next2 := if conflict then db.next_id else db.next_id + 1
    match rows2.find? (linkKeyHit user_scope url) with
    | some row =>
      let fts2 := fts_link_upsert ftsOk db.fts row.id (title.getD "")
        ((ext.byline).getD "") ((ext.site_name).getD "") (tagsCol.getD "") content user_scope
      .ok (⟨rows2, fts2, next2⟩, some row.id)
    | none => .ok (⟨rows2, db.fts, next2⟩, none)

/-- `tool_link_delete` (`linkbrain/tools.py` lines 191-200). -/
def tool_link_delete (db : LinkDB) (user_scope : String) (link_id : Nat)
    (ftsOk : Bool) : LinkDB × Nat :=
  let hit := fun (r : LinkRow) => decide (r.id = link_id ∧ r.user_scope = user_scope)
  let deleted := db.rows.countP hit
  let rows2 := db.rows.filter (fun r => !hit r)
  let fts2 := if deleted > 0 then fts_link_delete ftsOk db.fts link_id else db.fts
  (⟨rows2, fts2, db.next_id⟩, deleted)

/-- An item of a `link_query` result. -/
structure LinkItem where
  id : Nat
  url : String
  title : Option String
  byline : Option String
  site_name : Option String
  tags : List String
  word_count : Nat
  reading_minutes : Nat
  created_at : Int
  updated_at : Int
deriving DecidableEq

def linkRowToItem (r : LinkRow) : LinkItem :=
  ⟨r.id, r.url, r.title, r.byline, r.site_name, tagsOfCol r.tags, r.word_count,
    r.reading_minutes, r.created_at, r.updated_at⟩

def orderByIdDescL (rows : List LinkRow) : List LinkRow :=
  List.insertionSort (fun a b => b.id ≤ a.id) rows

/-- The fallback text predicate of `tool_link_query`: `%query%` against the
`ifnull`-ed title, byline, site_name, tags and content columns. -/
def linkLike (query : String) (r : LinkRow) : Bool :=
  sqlLike query (r.title.getD "") || sqlLike query (r.byline.getD "") ||
    sqlLike query (r.site_name.getD "") || sqlLike query (r.tags.getD "") ||
    sqlLike query (r.content.getD "")

/-- The spec-worded counterpart of `linkLike`: a literal case-insensitive
substring test over the same five fields. -/
def linkSubstr (query : String) (r : LinkRow) : Bool :=
  substrMatch query (r.title.getD "") || substrMatch query (r.byline.getD "") ||
    substrMatch query (r.site_name.getD "") || substrMatch query (r.tags.getD "") ||
    substrMatch query (r.content.getD "")

/-- `tool_link_query` (`linkbrain/tools.py` lines 140-188): FTS path joined
to the base table, silent fallback to the substring scan on
`sqlite3.OperationalError`, descending id, limit. -/
def tool_link_query (db : LinkDB) (backend : Option (LinkFtsRow → String → Bool))
    (user_scope query : String) (lim : Nat) : List LinkItem :=
  match backend with
  | some mfn =>
    let joined := db.rows.flatMap (fun l =>
      if decide (l.user_scope = user_scope) then
        (db.fts.filter (fun f => decide (f.rowid = l.id) && mfn f query)).map (fun _ => l)
      else [])
    ((orderByIdDescL joined).take lim).map linkRowToItem
  | none =>
    ((orderByIdDescL (db.rows.filter (fun r =>
        decide (r.user_scope = user_scope) && linkLike query r))).take lim).map linkRowToItem

/-- Stated from the spec's words, for comparison with the code's fallback
path of `tool_link_query`: the literal substring predicate over the same
fields, same ordering, same limit. -/
def spec_substring_scan_link (db : LinkDB) (user_scope query : String)
    (lim : Nat) : List LinkItem :=
  ((orderByIdDescL (db.rows.filter (fun r =>
      decide (r.user_scope = user_scope) && linkSubstr query r))).take lim).map linkRowToItem

/-! ### Rate limiter (`ratelimit.py`) -/

/-- A per-key token bucket; times and token counts are exact rationals. -/
structure TokenBucket where
  rate : ℚ
  capacity : ℚ
  tokens : ℚ
  updated_at : ℚ
deriving DecidableEq

/-- `TokenBucket.__init__` (`ratelimit.py` lines 6-10): full at creation. -/
def TokenBucket.init (rate_per_sec : ℚ) (burst : Nat) (now : ℚ) : TokenBucket :=
  ⟨rate_per_sec, burst, burst, now⟩

/-- `TokenBucket.allow` (`ratelimit.py` lines 12-20): top up by
`elapsed * rate` capped at capacity, then consume `cost` iff at least
`cost` tokens are present. -/
def TokenBucket.allow (b : TokenBucket) (now cost : ℚ) : Bool × TokenBucket :=
  let elapsed := now - b.updated_at
  let tokens := min b.capacity (b.tokens + elapsed * b.rate)
  if cost ≤ tokens then (true, { b with tokens := tokens - cost, updated_at := now })
  else (false, { b with tokens := tokens, updated_at := now })

/-- `RateLimiter` (`ratelimit.py` lines 23-34); the bucket map is a function
from keys. -/
structure RateLimiter where
  rate : ℚ
  burst : Nat
  buckets : String → Option TokenBucket

def RateLimiter.init (rate_per_sec : ℚ) (burst : Nat) : RateLimiter :=
  ⟨rate_per_sec, burst, fun _ => none⟩

/-- `RateLimiter.allow` (`ratelimit.py` lines 29-34): lazily create a full
bucket for an unseen key (at the time of that first call), then delegate. -/
def RateLimiter.allow (rl : RateLimiter) (key : String) (now cost : ℚ) :
    Bool × RateLimiter :=
  let b := match rl.buckets key with
    | some b => b
    | none => TokenBucket.init rl.rate rl.burst now
  let r := b.allow now cost
  (r.1, { rl with buckets := fun k => if k = key then some r.2 else rl.buckets k })

/-- Run a bucket through a sequence of `allow` calls at the given times
(cost 1 each, as the gateway issues them), returning the verdicts and the
final bucket. -/
def allowRun (b : TokenBucket) : List ℚ → List Bool × TokenBucket
  | [] => ([], b)
  | t :: ts =>
    let r := b.allow t 1
    let rest := allowRun r.2 ts
    (r.1 :: rest.1, rest.2)

/-- Run a limiter through a sequence of `allow` calls on one key. -/
def limiterRun (rl : RateLimiter) (key : String) : List ℚ → List Bool × RateLimiter
  | [] => ([], rl)
  | t :: ts =>
    let r := rl.allow key t 1
    let rest := limiterRun r.2 key ts
    (r.1 :: rest.1, rest.2)

/-! ### Dispatch gateway (`app.py`, `jsonrpc.py`, `utils.py`, `registry.py`) -/

/-- JSON values, as far as the gateway inspects them. -/
inductive Jv where
  | null : Jv
  | b : Bool → Jv
  | n : Int → Jv
  | s : String → Jv
  | arr : List Jv → Jv
  | obj : List (String × Jv) → Jv

/-- Python dict lookup on a JSON object's fields (keys are unique). -/
def jgetStr (fs : List (String × Jv)) (k : String) : Option Jv :=
  match fs with
  | [] => none
  | (k2, v) :: rest => if k2 = k then some v else jgetStr rest k

/-- Python truthiness of a JSON value. -/
def jvFalsy : Jv → Bool
  | .null => true
  | .b v => !v
  | .n v => decide (v = 0)
  | .s v => decide (v = "")
  | .arr vs => vs.isEmpty
  | .obj fs => fs.isEmpty

/-- Python `arguments or {}` (`app.py` line 114). -/
def pyOrEmptyObj (v : Jv) : Jv := if jvFalsy v then .obj [] else v

/-- `get_user_scope` (`utils.py` lines 9-14).  A truthy non-dict `params`
makes `params.get("user")` raise `AttributeError`, which at the one call
site (`app.py` line 122) is outside the try block and escapes the gateway:
that outcome is `.error ()`. -/
def get_user_scope (header_user_id : Option String) (params : Jv) :
    Except Unit String :=
  match header_user_id with
  | some h =>
    if h ≠ "" && pyStrip h ≠ "" then .ok (pyStrip h)
    else get_user_scope_params params
  | none => get_user_scope_params params
where
  get_user_scope_params (params : Jv) : Except Unit String :=
    if jvFalsy params then .ok "default"
    else
      match params with
      | .obj fs =>
        match jgetStr fs "user" with
        | some (.s u) => if pyStrip u ≠ "" then .ok (pyStrip u) else .ok "default"
        | _ => .ok "default"
      | _ => .error ()

/-- A registry entry (`registry.py`): the handler gets the resolved
user scope and the raw `arguments` value and either returns a result dict
or raises (the `Except.error` carries `str(e)`). -/
structure Tool where
  description : String
  parameters : Jv
  handler : String → Jv → Except String (List (String × Jv))

/-- `TOOLS.get(name)`; a non-string name never matches a registry key. -/
def toolFor (tools : List (String × Tool)) (nameV : Jv) : Option Tool :=
  match nameV with
  | .s n =>
    match tools.find? (fun e => e.1 = n) with
    | some e => some e.2
    | none => none
  | _ => none

/-- The `tools/list` payload (`app.py` lines 91-101): name, description,
and the schema exposed twice. -/
def toolsPublic (tools : List (String × Tool)) : Jv :=
  .arr (tools.map (fun e =>
    .obj [("name", .s e.1), ("description", .s e.2.description),
      ("parameters", e.2.parameters), ("input_schema", e.2.parameters)]))

/-- `{"request_id": req_id, **result}` (`app.py` line 127): in the Python
dict merge the handler's entries win, so a handler-supplied `request_id`
key would shadow the fresh one. -/
def mergeReqId (rid : String) (res : List (String × Jv)) : List (String × Jv) :=
  if (jgetStr res "request_id").isSome then res else ("request_id", .s rid) :: res

/-- The JSON-RPC error object; `data` is the `{"request_id": ...}` payload
when present. -/
structure RpcError where
  code : Int
  message : String
  data : Option String
deriving DecidableEq

/-- The HTTP response the endpoint builds: status, the `x-request-id`
header, and the JSON-RPC envelope (echoed id, and exactly one of
`result` / `error`). -/
structure HttpResponse where
  status : Nat
  xRequestId : String
  bodyId : Jv
  result : Option (List (String × Jv))
  error : Option RpcError

/-- The request body as the gateway's parsing stages see it:
`parseError` is invalid JSON (`request.json()` raised); `nonObject` is
valid JSON that is not an object, on which the `-32600` handler itself
crashes at `body.get("id")` (`app.py` line 69); `shapeError` is an object
that fails `JsonRpcRequest` validation, with the raw `id` field echoed;
`rpc` is a well-formed envelope. -/
inductive ParsedBody where
  | parseError : ParsedBody
  | nonObject : ParsedBody
  | shapeError : Jv → ParsedBody
  | rpc : String → String → Jv → Option (List (String × Jv)) → ParsedBody

/-- The caller-supplied JSON-RPC `id` the gateway echoes for each body. -/
def echoedId : ParsedBody → Jv
  | .parseError => .null
  | .nonObject => .null
  | .shapeError i => i
  | .rpc _ _ i _ => i

/-- The `tools/call` branch of the endpoint (`app.py` lines 105-138) for a
present `params` object `p`: resolve the tool, `arguments or {}`, the user
scope (whose failure escapes the endpoint: `none`), then run the handler
and wrap its result or error. -/
def mcp_call (tools : List (String × Tool)) (freshId : String)
    (xUserId : Option String) (i : Jv) (p : List (String × Jv)) :
    Option HttpResponse :=
  match jgetStr p "name", jgetStr p "arguments" with
  | some nameV, some argsV =>
    match toolFor tools nameV with
    | none =>
      some ⟨404, freshId, i, none, some ⟨-32601, "Tool not found", some freshId⟩⟩
    | some tool =>
      let args := pyOrEmptyObj argsV
      match get_user_scope xUserId args with
      | .error _ => none
      | .ok scope =>
        match tool.handler scope args with
        | .ok res =>
          some ⟨200, freshId, i, some (mergeReqId freshId res), none⟩
        | .error e =>
          some ⟨500, freshId, i, none,
            some ⟨-32000, "Tool execution error: " ++ e, some freshId⟩⟩
  | _, _ =>
    some ⟨400, freshId, i, none,
      some ⟨-32602, "Missing name/arguments", some freshId⟩⟩

/-- `mcp_endpoint` (`app.py` lines 44-150), past `ensure_bearer_auth`.
`freshId` is the `uuid.uuid4()` drawn by whichever branch handles the
request; `rateAllowed` is the limiter verdict for the request's key.
`none` is an unhandled exception escaping the endpoint (the framework's
own 500, with no envelope and no `x-request-id` header). -/
def mcp_endpoint (tools : List (String × Tool)) (freshId : String)
    (xUserId : Option String) (rateAllowed : Bool) (body : ParsedBody) :
    Option HttpResponse :=
  match body with
  | .parseError =>
    some ⟨400, freshId, .null, none, some ⟨-32700, "Parse error", some freshId⟩⟩
  | .nonObject => none
  | .shapeError i =>
    some ⟨400, freshId, i, none, some ⟨-32600, "Invalid request", some freshId⟩⟩
  | .rpc ver method i params =>
    if ver ≠ "2.0" then
      some ⟨400, freshId, i, none,
        some ⟨-32600, "Only JSON-RPC 2.0 is supported", some freshId⟩⟩
    else if !rateAllowed then
      some ⟨429, freshId, i, none, some ⟨-32001, "Rate limit exceeded", none⟩⟩
    else if method = "tools/list" then
      some ⟨200, freshId, i,
        some [("request_id", .s freshId), ("tools", toolsPublic tools)], none⟩
    else if method = "tools/call" then
      match params with
      | none =>
        some ⟨400, freshId, i, none,
          some ⟨-32602, "Missing name/arguments", some freshId⟩⟩
      | some p => mcp_call tools freshId xUserId i p
    else if method = "ping" then
      some ⟨200, freshId, i, some [("request_id", .s freshId), ("pong", .b true)], none⟩
    else
      some ⟨404, freshId, i, none, some ⟨-32601, "Method not found", some freshId⟩⟩

/-- True when the fresh request id is inside the JSON-RPC body: as the
`request_id` entry of `result`, or as `error.data`. -/
def bodyHasReqId (resp : HttpResponse) (rid : String) : Bool :=
  (match resp.result with
   | some fs =>
     match jgetStr fs "request_id" with
     | some (.s r) => decide (r = rid)
     | _ => false
   | none => false) ||
  (match resp.error with
   | some e => decide (e.data = some rid)
   | none => false)

/-! ### Fact-suggestion pruning (`memory/tools.py` lines 205-297) -/

/-- A candidate dict produced by the regex-heuristic stage of
`_extract_candidates` (lines 205-282); every heuristic builds a string
content, a string tag list, a string context and a confidence.  The
heuristic stage itself is the out-of-scope pattern matching the spec
treats as a replaceable utility; the claims quantify over its output. -/
structure Candidate where
  content : String
  tags : List String
  context : String
  confidence : ℚ
deriving DecidableEq

/-- The pruning tail of `_extract_candidates` (`memory/tools.py` lines
284-292): keep the candidates whose fields validate, cap at 5. -/
def prune_candidates (candidates : List Candidate) : List Candidate :=
  (candidates.filter (fun c =>
    (validate_memory_fields (some c.content) (some c.tags) (some c.context)).isOk)).take 5

/-- `tool_memory_suggest` (`memory/tools.py` lines 295-297), with the
heuristic stage's raw candidate list as the abstracted input. -/
def tool_memory_suggest (candidates : List Candidate) : List Candidate :=
  prune_candidates candidates

/-- The `(user_scope, url)` uniqueness invariant of the `links` table. -/
def linksUnique (rows : List LinkRow) : Prop :=
  rows.Pairwise (fun a b => ¬(a.user_scope = b.user_scope ∧ a.url = b.url))

/-- The per-branch correlation contract of the gateway: fresh id in the
header, caller id echoed, fresh id in the body except in the 429 branch. -/
def respOk (freshId : String) (eid : Jv) (resp : HttpResponse) : Prop :=
  resp.xRequestId = freshId ∧ resp.bodyId = eid ∧
    (resp.status ≠ 429 → bodyHasReqId resp freshId = true) ∧
    (resp.status = 429 →
      resp.error = some ⟨-32001, "Rate limit exceeded", none⟩ ∧
        bodyHasReqId resp freshId = false)

/-! ### Helper lemmas -/

theorem splitC_ne_nil : ∀ s : List Char, splitC s ≠ []
  | [] => by simp [splitC]
  | c :: rest => by
    simp only [splitC]
    split
    · exact List.cons_ne_nil _ _
    · split
      · exact List.cons_ne_nil _ _
      · exact List.cons_ne_nil _ _

theorem splitC_no_comma : ∀ t : List Char, ',' ∉ t → splitC t = [t]
  | [], _ => rfl
  | c :: rest, h => by
    have hc : ¬ c = ',' := fun hh => h (hh ▸ List.mem_cons_self c rest)
    have ih := splitC_no_comma rest (fun hm => h (List.mem_cons_of_mem _ hm))
    simp only [splitC, if_neg hc, ih]

theorem splitC_append : ∀ t r : List Char, ',' ∉ t →
    splitC (t ++ ',' :: r) = t :: splitC r
  | [], r, _ => by simp [splitC]
  | c :: t, r, h => by
    have hc : ¬ c = ',' := fun hh => h (hh ▸ List.mem_cons_self c t)
    have iht := splitC_append t r (fun hm => h (List.mem_cons_of_mem _ hm))
    show splitC (c :: (t ++ ',' :: r)) = (c :: t) :: splitC r
    rw [splitC, if_neg hc, iht]

theorem splitC_joinC : ∀ ts : List (List Char), ts ≠ [] → (∀ t ∈ ts, ',' ∉ t) →
    splitC (joinC ts) = ts
  | [], h, _ => absurd rfl h
  | [t], _, h => by
    simp only [joinC]
    exact splitC_no_comma t (h t (by simp))
  | t :: t2 :: ts, _, h => by
    have hj : joinC (t :: t2 :: ts) = t ++ ',' :: joinC (t2 :: ts) := rfl
    rw [hj, splitC_append t _ (h t (by simp)),
      splitC_joinC (t2 :: ts) (by simp) (fun x hx => h x (List.mem_cons_of_mem _ hx))]

theorem toList_mk (l : List Char) : (String.mk l).toList = l := rfl

theorem mk_toList (s : String) : String.mk s.toList = s := rfl

theorem pySplit_pyJoin (ts : List String) (hne : ts ≠ [])
    (h : ∀ t ∈ ts, ',' ∉ t.toList) : pySplitComma (pyJoinComma ts) = ts := by
  unfold pySplitComma pyJoinComma
  rw [toList_mk,
    splitC_joinC (ts.map String.toList) (by simpa using hne)
      (by
        intro t ht
        obtain ⟨s, hs, rfl⟩ := List.mem_map.1 ht
        exact h s hs),
    List.map_map]
  have hcomp : String.mk ∘ String.toList = id := funext mk_toList
  rw [hcomp, List.map_id]

theorem pyJoin_ne_empty : ∀ ts : List String, ts ≠ [] → ts ≠ [""] →
    pyJoinComma ts ≠ ""
  | [], h, _ => absurd rfl h
  | [t], _, h2 => by
    intro heq
    unfold pyJoinComma at heq
    have : t = "" := by
      have := congrArg String.toList heq
      simp only [toList_mk, List.map] at this
      have ht : t.toList = [] := by simpa [joinC] using this
      have := congrArg String.mk ht
      simpa [mk_toList] using this
    exact h2 (by rw [this])
  | t :: t2 :: ts, _, _ => by
    intro heq
    have h2 := congrArg String.toList heq
    rw [pyJoinComma] at heq
    have h3 := congrArg String.toList heq
    rw [toList_mk] at h3
    have hnil : ("" : String).toList = [] := rfl
    rw [hnil] at h3
    simp only [List.map] at h3
    have h4 : t.toList ++ ',' :: joinC (t2.toList :: ts.map String.toList) = [] := h3
    simp at h4

theorem mem_tool_memory_query_none {db : MemDB} {scope query : String}
    {lim : Nat} {now : Int} {it : MemItem}
    (h : it ∈ tool_memory_query db none scope query lim now) :
    ∃ r ∈ db.rows, it = memRowToItem r ∧ r.user_scope = scope ∧
      inWindow (parse_time_hints query now) r.created_at = true ∧
      memLike query r = true := by
  simp only [tool_memory_query] at h
  obtain ⟨r, hrt, rfl⟩ := List.mem_map.1 h
  have hrs := List.take_subset _ _ hrt
  have hrf := ((List.perm_insertionSort _ _).mem_iff).1 hrs
  obtain ⟨hmem, hp⟩ := List.mem_filter.1 hrf
  rw [Bool.and_eq_true, Bool.and_eq_true] at hp
  exact ⟨r, hmem, rfl, of_decide_eq_true hp.1.1, hp.1.2, hp.2⟩

theorem mem_tool_memory_query_some {db : MemDB} {m : FtsRow → String → Bool}
    {scope query : String} {lim : Nat} {now : Int} {it : MemItem}
    (h : it ∈ tool_memory_query db (some m) scope query lim now) :
    ∃ r ∈ db.rows, it = memRowToItem r ∧ r.user_scope = scope ∧
      inWindow (parse_time_hints query now) r.created_at = true ∧
      ∃ f ∈ db.fts, f.rowid = r.id ∧ m f query = true := by
  simp only [tool_memory_query] at h
  obtain ⟨r, hrt, rfl⟩ := List.mem_map.1 h
  have hrs := List.take_subset _ _ hrt
  have hrf := ((List.perm_insertionSort _ _).mem_iff).1 hrs
  obtain ⟨m0, hm0, hr⟩ := List.mem_flatMap.1 hrf
  split at hr
  case isTrue hcond =>
    obtain ⟨f, hf, hfr⟩ := List.mem_map.1 hr
    obtain ⟨hfmem, hfp⟩ := List.mem_filter.1 hf
    rw [Bool.and_eq_true] at hfp hcond
    subst hfr
    exact ⟨m0, hm0, rfl, of_decide_eq_true hcond.1, hcond.2,
      f, hfmem, of_decide_eq_true hfp.1, hfp.2⟩
  case isFalse => simp at hr

theorem mem_tool_link_query_none {db : LinkDB} {scope query : String}
    {lim : Nat} {it : LinkItem}
    (h : it ∈ tool_link_query db none scope query lim) :
    ∃ r ∈ db.rows, it = linkRowToItem r ∧ r.user_scope = scope ∧
      linkLike query r = true := by
  simp only [tool_link_query] at h
  obtain ⟨r, hrt, rfl⟩ := List.mem_map.1 h
  have hrs := List.take_subset _ _ hrt
  have hrf := ((List.perm_insertionSort _ _).mem_iff).1 hrs
  obtain ⟨hmem, hp⟩ := List.mem_filter.1 hrf
  rw [Bool.and_eq_true] at hp
  exact ⟨r, hmem, rfl, of_decide_eq_true hp.1, hp.2⟩

theorem mem_tool_link_query_some {db : LinkDB} {m : LinkFtsRow → String → Bool}
    {scope query : String} {lim : Nat} {it : LinkItem}
    (h : it ∈ tool_link_query db (some m) scope query lim) :
    ∃ r ∈ db.rows, it = linkRowToItem r ∧ r.user_scope = scope ∧
      ∃ f ∈ db.fts, f.rowid = r.id ∧ m f query = true := by
  simp only [tool_link_query] at h
  obtain ⟨r, hrt, rfl⟩ := List.mem_map.1 h
  have hrs := List.take_subset _ _ hrt
  have hrf := ((List.perm_insertionSort _ _).mem_iff).1 hrs
  obtain ⟨m0, hm0, hr⟩ := List.mem_flatMap.1 hrf
  split at hr
  case isTrue hcond =>
    obtain ⟨f, hf, hfr⟩ := List.mem_map.1 hr
    obtain ⟨hfmem, hfp⟩ := List.mem_filter.1 hf
    rw [Bool.and_eq_true] at hfp
    subst hfr
    exact ⟨m0, hm0, rfl, of_decide_eq_true hcond,
      f, hfmem, of_decide_eq_true hfp.1, hfp.2⟩
  case isFalse => simp at hr

theorem map_ite_id {α : Type _} (l : List α) (p : α → Bool) (f : α → α)
    (h : ∀ a ∈ l, p a = false) :
    l.map (fun a => if p a then f a else a) = l := by
  have h1 : l.map (fun a => if p a then f a else a) = l.map id :=
    List.map_congr_left (fun a ha => by rw [h a ha]; rfl)
  rw [h1, List.map_id]

/-- C9 (amended): a memory stored with a tag list whose tags contain no
comma, and which is not the single-empty-string list `[""]`, reads back
(via `memory_list`) with exactly the original tag list in the original
order; an absent or empty tag list reads back as `[]`.  (The claim as
stated fails precisely at `[""]`, whose comma-join is the falsy `""`.) -/
theorem c9_tags_roundtrip
    (db : MemDB) (scope content : String) (tags : Option (List String))
    (context : Option String) (now : Int) (ftsOk : Bool) (db2 : MemDB) (mid : Nat)
    (hnc : ∀ t ∈ tags.getD [], ',' ∉ t.toList)
    (hne : tags ≠ some [""])
    (hstore : tool_memory_store db scope content tags context now ftsOk =
      .ok (db2, mid)) :
    ∃ it ∈ tool_memory_list db2 scope db2.rows.length 0,
      it.id = mid ∧ it.tags = tags.getD [] := by
  unfold tool_memory_store at hstore
  cases hval : validate_memory_fields (some content) tags context with
  | error e => rw [hval] at hstore; exact absurd hstore (by simp)
  | ok u =>
    rw [hval] at hstore
    simp only [Except.ok.injEq, Prod.mk.injEq] at hstore
    obtain ⟨hdb, hmid⟩ := hstore
    subst hdb
    subst hmid
    refine ⟨memRowToItem (MemoryRow.mk db.next_id scope content (pyOrNone context)
      (pyTagsJoin tags) now now), ?_, rfl, ?_⟩
    · unfold tool_memory_list orderByIdDescM
      apply List.mem_map_of_mem
      rw [List.drop_zero]
      have hlen : (List.insertionSort (fun a b : MemoryRow => b.id ≤ a.id)
          ((db.rows ++ [MemoryRow.mk db.next_id scope content (pyOrNone context)
            (pyTagsJoin tags) now now]).filter
            (fun r => decide (r.user_scope = scope)))).length ≤
          (db.rows ++ [MemoryRow.mk db.next_id scope content (pyOrNone context)
            (pyTagsJoin tags) now now]).length := by
        rw [(List.perm_insertionSort _ _).length_eq]
        exact List.length_filter_le _ _
      rw [List.take_of_length_le hlen]
      refine ((List.perm_insertionSort _ _).mem_iff).2 (List.mem_filter.2 ⟨?_, by simp⟩)
      exact List.mem_append_right _ (List.mem_singleton_self _)
    · show tagsOfCol (pyTagsJoin tags) = tags.getD []
      cases tags with
      | none => rfl
      | some ts =>
        by_cases hts : ts = []
        · subst hts; rfl
        · have hjoin : pyJoinComma ts ≠ "" :=
            pyJoin_ne_empty ts hts (fun hh => hne (by rw [hh]))
          show tagsOfCol (pyTagsJoin (some ts)) = ts
          simp only [pyTagsJoin, if_neg hts, tagsOfCol, if_neg hjoin]
          exact pySplit_pyJoin ts hts (by simpa using hnc)

/-- C9 witness: storing tags `["a", "b"]` into an empty store and listing
reads back `["a", "b"]` on the stored id. -/
theorem c9_tags_roundtrip_witness :
    ∃ it ∈ tool_memory_list
        ⟨[⟨1, "u", "buy milk", none, some "a,b", 0, 0⟩],
          [⟨1, "buy milk", "", "a,b", "u"⟩], 2⟩ "u" 1 0,
      it.id = 1 ∧ it.tags = ["a", "b"] :=
  c9_tags_roundtrip ⟨[], [], 1⟩ "u" "buy milk" (some ["a", "b"]) none 0 true
    ⟨[⟨1, "u", "buy milk", none, some "a,b", 0, 0⟩],
      [⟨1, "buy milk", "", "a,b", "u"⟩], 2⟩ 1
    (by decide) (by decide) rfl

/-- C9 counterexample: the tag list `[""]` contains no comma, yet storing
it serializes to the falsy `""` and it reads back as `[]`, not `[""]`. -/
theorem c9_counterexample :
    tool_memory_store ⟨[], [], 1⟩ "u" "x" (some [""]) none 0 true =
      .ok (⟨[⟨1, "u", "x", none, some "", 0, 0⟩], [⟨1, "x", "", "", "u"⟩], 2⟩, 1) ∧
    tool_memory_list ⟨[⟨1, "u", "x", none, some "", 0, 0⟩],
        [⟨1, "x", "", "", "u"⟩], 2⟩ "u" 1 0 =
      [⟨1, "x", none, [], 0, 0⟩] ∧
    ([] : List String) ≠ [""] := by
  refine ⟨rfl, by decide, by decide⟩

/-- C10: `memory_suggest` returns at most 5 candidates, and every returned
candidate passes the same `validate_memory_fields` check that
`memory_store` enforces, so storing any suggested candidate succeeds. -/
theorem c10_suggest_bounded_valid (cs : List Candidate) :
    (tool_memory_suggest cs).length ≤ 5 ∧
    ∀ c ∈ tool_memory_suggest cs,
      validate_memory_fields (some c.content) (some c.tags) (some c.context) =
        .ok () ∧
      ∀ (db : MemDB) (scope : String) (now : Int) (ftsOk : Bool),
        ∃ db2 mid, tool_memory_store db scope c.content (some c.tags)
          (some c.context) now ftsOk = .ok (db2, mid) := by
  constructor
  · unfold tool_memory_suggest prune_candidates
    rw [List.length_take]
    exact min_le_left _ _
  · intro c hc
    unfold tool_memory_suggest prune_candidates at hc
    have hfil := List.take_subset _ _ hc
    have hp := (List.mem_filter.1 hfil).2
    cases hv : validate_memory_fields (some c.content) (some c.tags) (some c.context) with
    | error e =>
      rw [hv] at hp
      exact absurd hp (by simp [Except.isOk, Except.toBool])
    | ok u =>
      cases u
      refine ⟨rfl, ?_⟩
      intro db scope now ftsOk
      unfold tool_memory_store
      rw [hv]
      exact ⟨_, _, rfl⟩

/-- C10 witness at a concrete candidate list. -/
theorem c10_suggest_bounded_valid_witness :
    (tool_memory_suggest [⟨"My email is a@b.c", ["contact", "email"], "contact", 1⟩]).length ≤ 5 ∧
    validate_memory_fields (some "My email is a@b.c") (some ["contact", "email"])
      (some "contact") = .ok () ∧
    ∃ db2 mid, tool_memory_store ⟨[], [], 1⟩ "u" "My email is a@b.c"
      (some ["contact", "email"]) (some "contact") 0 true = .ok (db2, mid) := by
  have h := c10_suggest_bounded_valid
    [⟨"My email is a@b.c", ["contact", "email"], "contact", 1⟩]
  have hmem : (⟨"My email is a@b.c", ["contact", "email"], "contact", 1⟩ : Candidate) ∈
      tool_memory_suggest [⟨"My email is a@b.c", ["contact", "email"], "contact", 1⟩] := by
    have hred : tool_memory_suggest
        [⟨"My email is a@b.c", ["contact", "email"], "contact", 1⟩] =
        [⟨"My email is a@b.c", ["contact", "email"], "contact", 1⟩] := rfl
    rw [hred]
    exact List.mem_singleton_self _
  exact ⟨h.1, (h.2 _ hmem).1, (h.2 _ hmem).2 ⟨[], [], 1⟩ "u" 0 true⟩

/-- C5: a delete or update issued under a scope different from the owner of
the targeted id matches zero rows: the database is returned unchanged and
the reported `deleted` / `updated` count is 0, for the memory domain and
the link domain alike.  The only authorization check is the scope filter
in the `WHERE` clause. -/
theorem c5_scope_isolation (dbM : MemDB) (dbL : LinkDB) (A B : String) (rid : Nat)
    (hAB : A ≠ B)
    (hM : ∀ r ∈ dbM.rows, r.id = rid → r.user_scope = A)
    (hL : ∀ r ∈ dbL.rows, r.id = rid → r.user_scope = A) :
    (∀ ftsOk, tool_memory_delete dbM B rid ftsOk = (dbM, 0)) ∧
    (∀ ftsOk, tool_link_delete dbL B rid ftsOk = (dbL, 0)) ∧
    (∀ content tags context now ftsOk u,
      validate_memory_fields content tags context = .ok u →
      tool_memory_update dbM B rid content tags context now ftsOk =
        .ok (dbM, 0)) := by
  have hMpred : ∀ r ∈ dbM.rows, ¬(r.id = rid ∧ r.user_scope = B) := by
    intro r hr hand
    exact hAB (((hM r hr hand.1).symm.trans hand.2))
  have hLpred : ∀ r ∈ dbL.rows, ¬(r.id = rid ∧ r.user_scope = B) := by
    intro r hr hand
    exact hAB (((hL r hr hand.1).symm.trans hand.2))
  have hcountM : dbM.rows.countP (fun r => decide (r.id = rid ∧ r.user_scope = B)) = 0 := by
    rw [List.countP_eq_zero]
    intro r hr
    simp only [decide_eq_true_eq]
    exact hMpred r hr
  have hfiltM : dbM.rows.filter
      (fun r => !decide (r.id = rid ∧ r.user_scope = B)) = dbM.rows := by
    rw [List.filter_eq_self]
    intro r hr
    simp only [Bool.not_eq_true', decide_eq_false_iff_not]
    exact hMpred r hr
  have hcountL : dbL.rows.countP (fun r => decide (r.id = rid ∧ r.user_scope = B)) = 0 := by
    rw [List.countP_eq_zero]
    intro r hr
    simp only [decide_eq_true_eq]
    exact hLpred r hr
  have hfiltL : dbL.rows.filter
      (fun r => !decide (r.id = rid ∧ r.user_scope = B)) = dbL.rows := by
    rw [List.filter_eq_self]
    intro r hr
    simp only [Bool.not_eq_true', decide_eq_false_iff_not]
    exact hLpred r hr
  refine ⟨?_, ?_, ?_⟩
  · intro ftsOk
    unfold tool_memory_delete
    simp only [hcountM, hfiltM]
    rfl
  · intro ftsOk
    unfold tool_link_delete
    simp only [hcountL, hfiltL]
    rfl
  · intro content tags context now ftsOk u hv
    unfold tool_memory_update
    rw [hv]
    have hmap : dbM.rows.map (fun r =>
        if decide (r.id = rid ∧ r.user_scope = B) then
          memApplyUpdate content tags context now r
        else r) = dbM.rows :=
      map_ite_id _ _ _ (fun r hr => by
        simp only [decide_eq_false_iff_not]
        exact hMpred r hr)
    simp only [hcountM, hmap]
    rfl

/-- C5 witness at concrete one-row stores owned by scope `alice`. -/
theorem c5_scope_isolation_witness :
    tool_memory_delete ⟨[⟨7, "alice", "c", none, none, 0, 0⟩], [], 8⟩ "bob" 7 true =
      (⟨[⟨7, "alice", "c", none, none, 0, 0⟩], [], 8⟩, 0) ∧
    tool_link_delete ⟨[⟨7, "alice", "https://e.com", none, none, none, none, none,
        0, 1, 0, 0, none, none⟩], [], 8⟩ "bob" 7 true =
      (⟨[⟨7, "alice", "https://e.com", none, none, none, none, none,
        0, 1, 0, 0, none, none⟩], [], 8⟩, 0) ∧
    tool_memory_update ⟨[⟨7, "alice", "c", none, none, 0, 0⟩], [], 8⟩ "bob" 7
      (some "new") none none 5 true =
      .ok (⟨[⟨7, "alice", "c", none, none, 0, 0⟩], [], 8⟩, 0) := by
  have h := c5_scope_isolation ⟨[⟨7, "alice", "c", none, none, 0, 0⟩], [], 8⟩
    ⟨[⟨7, "alice", "https://e.com", none, none, none, none, none,
      0, 1, 0, 0, none, none⟩], [], 8⟩ "alice" "bob" 7
    (by decide) (by decide) (by decide)
  exact ⟨h.1 true, h.2.1 true, h.2.2 (some "new") none none 5 true () rfl⟩

theorem suffixes_any_isEmpty : ∀ t : List Char,
    (suffixes t).any (fun s => s.isEmpty) = true
  | [] => rfl
  | c :: ts => by
    show ((c :: ts) :: suffixes ts).any (fun s => s.isEmpty) = true
    rw [List.any_cons, suffixes_any_isEmpty ts]
    simp

theorem likeMatch_plain_pct : ∀ q : List Char, '%' ∉ q → '_' ∉ q →
    ∀ t, likeMatch (q ++ ['%']) t = isPrefixL q t
  | [], _, _, t => by
    show likeMatch ['%'] t = isPrefixL [] t
    have h1 : likeMatch ['%'] t =
        (suffixes t).any (fun s => likeMatch [] s) := by
      simp [likeMatch]
    rw [h1]
    have he : ∀ s : List Char, likeMatch [] s = s.isEmpty := fun s => rfl
    simp only [he]
    exact suffixes_any_isEmpty t
  | c :: q, hp, hu, t => by
    have hc1 : ¬ c = '%' := fun h => hp (h ▸ List.mem_cons_self c q)
    have hc2 : ¬ c = '_' := fun h => hu (h ▸ List.mem_cons_self c q)
    have ih := likeMatch_plain_pct q (fun hm => hp (List.mem_cons_of_mem _ hm))
      (fun hm => hu (List.mem_cons_of_mem _ hm))
    show likeMatch (c :: (q ++ ['%'])) t = isPrefixL (c :: q) t
    simp only [likeMatch, if_neg hc1]
    cases t with
    | nil => rfl
    | cons d ts =>
      show (if c = '_' then likeMatch (q ++ ['%']) ts
        else (decide (c = d) && likeMatch (q ++ ['%']) ts)) =
        isPrefixL (c :: q) (d :: ts)
      rw [if_neg hc2, ih ts]
      rfl

theorem suffixes_any_isPrefix (q : List Char) : ∀ t : List Char,
    (suffixes t).any (fun s => isPrefixL q s) = containsL q t
  | [] => by
    show ([([] : List Char)]).any (fun s => isPrefixL q s) = isPrefixL q []
    rw [List.any_cons, List.any_nil]
    simp
  | c :: ts => by
    show ((c :: ts) :: suffixes ts).any (fun s => isPrefixL q s) =
      containsL q (c :: ts)
    rw [List.any_cons, suffixes_any_isPrefix q ts]
    rfl

theorem sqlLike_eq_substr (query s : String)
    (hp : '%' ∉ lowerL query.toList) (hu : '_' ∉ lowerL query.toList) :
    sqlLike query s = substrMatch query s := by
  show likeMatch ('%' :: (lowerL query.toList ++ ['%'])) (lowerL s.toList) =
    containsL (lowerL query.toList) (lowerL s.toList)
  have h1 : likeMatch ('%' :: (lowerL query.toList ++ ['%'])) (lowerL s.toList) =
      (suffixes (lowerL s.toList)).any
        (fun s0 => likeMatch (lowerL query.toList ++ ['%']) s0) := by
    simp [likeMatch]
  rw [h1]
  have h2 := fun s0 => likeMatch_plain_pct (lowerL query.toList) hp hu s0
  simp only [h2]
  exact suffixes_any_isPrefix _ _

theorem memLike_eq_substr (query : String)
    (hp : '%' ∉ lowerL query.toList) (hu : '_' ∉ lowerL query.toList)
    (r : MemoryRow) : memLike query r = memSubstr query r := by
  have h := fun s => sqlLike_eq_substr query s hp hu
  simp only [memLike, memSubstr, h]

theorem linkLike_eq_substr (query : String)
    (hp : '%' ∉ lowerL query.toList) (hu : '_' ∉ lowerL query.toList)
    (r : LinkRow) : linkLike query r = linkSubstr query r := by
  have h := fun s => sqlLike_eq_substr query s hp hu
  simp only [linkLike, linkSubstr, h]

/-- C6 (amended): the fallback taken when the search-index backend is
absent or rejects the query form is the silent, scope-filtered,
case-insensitive `LIKE '%query%'` scan over the same text fields with the
same descending-id ordering and limit; it equals the spec's
case-insensitive substring scan exactly when the query text contains no
SQL `LIKE` wildcard (`%` or `_`) — with wildcards the two differ — and on
either path every returned item is the `row_to_dict` projection of a base
table row, so index absence never surfaces as an error and the result
shape is identical. -/
theorem c6_fallback_scan (dbM : MemDB) (dbL : LinkDB) (scope query : String)
    (lim : Nat) (now : Int) :
    ('%' ∉ lowerL query.toList → '_' ∉ lowerL query.toList →
      tool_memory_query dbM none scope query lim now =
        spec_substring_scan_memory dbM scope query lim now ∧
      tool_link_query dbL none scope query lim =
        spec_substring_scan_link dbL scope query lim) ∧
    (∀ backend it, it ∈ tool_memory_query dbM backend scope query lim now →
      ∃ r ∈ dbM.rows, it = memRowToItem r) ∧
    (∀ backend it, it ∈ tool_link_query dbL backend scope query lim →
      ∃ r ∈ dbL.rows, it = linkRowToItem r) := by
  refine ⟨?_, ?_, ?_⟩
  · intro hp hu
    constructor
    · simp only [tool_memory_query, spec_substring_scan_memory]
      have hfil : dbM.rows.filter (fun r =>
          decide (r.user_scope = scope) &&
            inWindow (parse_time_hints query now) r.created_at &&
            memLike query r) =
          dbM.rows.filter (fun r =>
          decide (r.user_scope = scope) &&
            inWindow (parse_time_hints query now) r.created_at &&
            memSubstr query r) :=
        List.filter_congr (fun r _ => by rw [memLike_eq_substr query hp hu r])
      rw [hfil]
    · simp only [tool_link_query, spec_substring_scan_link]
      have hfil : dbL.rows.filter (fun r =>
          decide (r.user_scope = scope) && linkLike query r) =
          dbL.rows.filter (fun r =>
          decide (r.user_scope = scope) && linkSubstr query r) :=
        List.filter_congr (fun r _ => by rw [linkLike_eq_substr query hp hu r])
      rw [hfil]
  · intro backend it hit
    cases backend with
    | none =>
      obtain ⟨r, hr, heq, _⟩ := mem_tool_memory_query_none hit
      exact ⟨r, hr, heq⟩
    | some m =>
      obtain ⟨r, hr, heq, _⟩ := mem_tool_memory_query_some hit
      exact ⟨r, hr, heq⟩
  · intro backend it hit
    cases backend with
    | none =>
      obtain ⟨r, hr, heq, _⟩ := mem_tool_link_query_none hit
      exact ⟨r, hr, heq⟩
    | some m =>
      obtain ⟨r, hr, heq, _⟩ := mem_tool_link_query_some hit
      exact ⟨r, hr, heq⟩

/-- C6 witness: for the wildcard-free query "hello" the fallback equals
the substring scan, and the membership clause holds at a concrete item. -/
theorem c6_fallback_scan_witness :
    tool_memory_query ⟨[⟨1, "u", "hello world", none, none, 0, 0⟩], [], 2⟩ none
      "u" "hello" 5 0 =
      spec_substring_scan_memory
        ⟨[⟨1, "u", "hello world", none, none, 0, 0⟩], [], 2⟩ "u" "hello" 5 0 ∧
    ∃ r ∈ ([⟨1, "u", "hello world", none, none, 0, 0⟩] : List MemoryRow),
      (⟨1, "hello world", none, [], 0, 0⟩ : MemItem) = memRowToItem r := by
  have h := c6_fallback_scan ⟨[⟨1, "u", "hello world", none, none, 0, 0⟩], [], 2⟩
    ⟨[], [], 1⟩ "u" "hello" 5 0
  exact ⟨(h.1 (by decide) (by decide)).1,
    h.2.1 none ⟨1, "hello world", none, [], 0, 0⟩ (by decide)⟩

/-- C6 counterexample: the code's fallback binds `%query%` as a `LIKE`
pattern, so a `%` inside the query is a wildcard: the query "a%b" returns
the record whose content is "axb", while the claimed case-insensitive
substring scan over the same fields with the same ordering and limit
returns nothing — the fallback is not a substring scan for such queries. -/
theorem c6_fallback_scan_counterexample :
    (tool_memory_query ⟨[⟨1, "u", "axb", none, none, 0, 0⟩], [], 2⟩ none "u"
      "a%b" 5 0).map MemItem.id = [1] ∧
    spec_substring_scan_memory ⟨[⟨1, "u", "axb", none, none, 0, 0⟩], [], 2⟩ "u"
      "a%b" 5 0 = [] := by
  exact ⟨by decide, by decide⟩

/-- C7: after a successful delete of a record id, no text query in any
user scope returns an item with that id — even when the best-effort purge
of the search-index row failed and the index is stale — because both query
paths resolve items against the base table (the FTS path joins on it). -/
theorem c7_deleted_not_findable (dbM : MemDB) (dbL : LinkDB) (scope : String)
    (d : Nat) (purgeM purgeL : Bool)
    (hM : dbM.rows.Pairwise (fun a b => a.id ≠ b.id))
    (hL : dbL.rows.Pairwise (fun a b => a.id ≠ b.id)) :
    ((tool_memory_delete dbM scope d purgeM).2 > 0 →
      ∀ backend scope2 q lim now it,
        it ∈ tool_memory_query (tool_memory_delete dbM scope d purgeM).1
          backend scope2 q lim now → it.id ≠ d) ∧
    ((tool_link_delete dbL scope d purgeL).2 > 0 →
      ∀ backend scope2 q lim it,
        it ∈ tool_link_query (tool_link_delete dbL scope d purgeL).1
          backend scope2 q lim → it.id ≠ d) := by
  constructor
  · intro hdel backend scope2 q lim now it hit
    have hcnt : (tool_memory_delete dbM scope d purgeM).2 =
        dbM.rows.countP (fun r => decide (r.id = d ∧ r.user_scope = scope)) := rfl
    rw [hcnt] at hdel
    obtain ⟨r0, hr0mem, hr0⟩ := List.countP_pos_iff.1 hdel
    have hr0p := of_decide_eq_true hr0
    have hmem : ∃ r ∈ (tool_memory_delete dbM scope d purgeM).1.rows,
        it = memRowToItem r := by
      cases backend with
      | none =>
        obtain ⟨r, hr, he, _⟩ := mem_tool_memory_query_none hit
        exact ⟨r, hr, he⟩
      | some m =>
        obtain ⟨r, hr, he, _⟩ := mem_tool_memory_query_some hit
        exact ⟨r, hr, he⟩
    obtain ⟨r, hr, he⟩ := hmem
    have hrows : (tool_memory_delete dbM scope d purgeM).1.rows =
        dbM.rows.filter (fun r => !decide (r.id = d ∧ r.user_scope = scope)) := rfl
    rw [hrows] at hr
    obtain ⟨hrmem, hrpred⟩ := List.mem_filter.1 hr
    rw [Bool.not_eq_true'] at hrpred
    have hnp : ¬(r.id = d ∧ r.user_scope = scope) :=
      decide_eq_false_iff_not.1 hrpred
    subst he
    intro hid
    have hridd : r.id = d := hid
    have hscope : r.user_scope ≠ scope := fun hs => hnp ⟨hridd, hs⟩
    have hne : r ≠ r0 := fun hrr => hscope (hrr ▸ hr0p.2)
    have hids := (hM.forall (fun a b h => h.symm)) hrmem hr0mem hne
    exact hids (hridd.trans hr0p.1.symm)
  · intro hdel backend scope2 q lim it hit
    have hcnt : (tool_link_delete dbL scope d purgeL).2 =
        dbL.rows.countP (fun r => decide (r.id = d ∧ r.user_scope = scope)) := rfl
    rw [hcnt] at hdel
    obtain ⟨r0, hr0mem, hr0⟩ := List.countP_pos_iff.1 hdel
    have hr0p := of_decide_eq_true hr0
    have hmem : ∃ r ∈ (tool_link_delete dbL scope d purgeL).1.rows,
        it = linkRowToItem r := by
      cases backend with
      | none =>
        obtain ⟨r, hr, he, _⟩ := mem_tool_link_query_none hit
        exact ⟨r, hr, he⟩
      | some m =>
        obtain ⟨r, hr, he, _⟩ := mem_tool_link_query_some hit
        exact ⟨r, hr, he⟩
    obtain ⟨r, hr, he⟩ := hmem
    have hrows : (tool_link_delete dbL scope d purgeL).1.rows =
        dbL.rows.filter (fun r => !decide (r.id = d ∧ r.user_scope = scope)) := rfl
    rw [hrows] at hr
    obtain ⟨hrmem, hrpred⟩ := List.mem_filter.1 hr
    rw [Bool.not_eq_true'] at hrpred
    have hnp : ¬(r.id = d ∧ r.user_scope = scope) :=
      decide_eq_false_iff_not.1 hrpred
    subst he
    intro hid
    have hridd : r.id = d := hid
    have hscope : r.user_scope ≠ scope := fun hs => hnp ⟨hridd, hs⟩
    have hne : r ≠ r0 := fun hrr => hscope (hrr ▸ hr0p.2)
    have hids := (hL.forall (fun a b h => h.symm)) hrmem hr0mem hne
    exact hids (hridd.trans hr0p.1.symm)

/-- C7 witness: delete id 1 with a failing index purge (the index keeps a
stale row for id 1), then query with an index backend that matches
everything; the only returned item is id 2. -/
theorem c7_deleted_not_findable_witness :
    (⟨2, "hello x", none, [], 0, 0⟩ : MemItem).id ≠ 1 ∧
    (⟨2, "https://b.com", none, none, none, [], 0, 1, 0, 0⟩ : LinkItem).id ≠ 1 := by
  have h := c7_deleted_not_findable
    ⟨[⟨1, "u", "x", none, none, 0, 0⟩, ⟨2, "u", "hello x", none, none, 0, 0⟩],
      [⟨1, "x", "", "", "u"⟩, ⟨2, "hello x", "", "", "u"⟩], 3⟩
    ⟨[⟨1, "u", "https://a.com", none, none, none, none, none, 0, 1, 0, 0, none,
        none⟩,
      ⟨2, "u", "https://b.com", none, none, none, none, none, 0, 1, 0, 0, none,
        none⟩],
      [⟨1, "", "", "", "", "", "u"⟩, ⟨2, "", "", "", "", "", "u"⟩], 3⟩
    "u" 1 false false (by decide) (by decide)
  refine ⟨h.1 (by decide) (some (fun _ _ => true)) "u" "x" 10 0
    ⟨2, "hello x", none, [], 0, 0⟩ (by decide),
    h.2 (by decide) (some (fun _ _ => true)) "u" "b" 10
    ⟨2, "https://b.com", none, none, none, [], 0, 1, 0, 0⟩ (by decide)⟩

/-- C2 (amended): `memory_query` parses time hints case-insensitively with
precedence "last week" > "yesterday" > "today" and windows
"last week" = `[now − 7d, now]`, "yesterday" = `[midnight − 24h, midnight]`,
"today" = `[midnight, midnight + 24h]` — all inclusive at both endpoints,
because the SQL `BETWEEN` is inclusive (the claim's half-open right
endpoints for "yesterday"/"today" are off at the boundary) — and every
returned item on either query path also satisfies the text predicate of
that path, ANDed with the window. -/
theorem c2_time_hints (db : MemDB) (scope query : String) (lim : Nat) (now : Int) :
    parse_time_hints query now =
      (if containsL "last week".toList (lowerL query.toList) then
          some (now - 7 * 86400, now)
        else if containsL "yesterday".toList (lowerL query.toList) then
          some (midnightOf now - 86400, midnightOf now)
        else if containsL "today".toList (lowerL query.toList) then
          some (midnightOf now, midnightOf now + 86400)
        else none) ∧
    (∀ it ∈ tool_memory_query db none scope query lim now,
      ∃ r ∈ db.rows, it = memRowToItem r ∧ r.user_scope = scope ∧
        memLike query r = true ∧
        inWindow (parse_time_hints query now) r.created_at = true) ∧
    (∀ m it, it ∈ tool_memory_query db (some m) scope query lim now →
      ∃ r ∈ db.rows, it = memRowToItem r ∧ r.user_scope = scope ∧
        (∃ f ∈ db.fts, f.rowid = r.id ∧ m f query = true) ∧
        inWindow (parse_time_hints query now) r.created_at = true) := by
  refine ⟨?_, ?_, ?_⟩
  · simp only [parse_time_hints]
    split_ifs with h1 h2 h3
    · rfl
    · simp only [midnightOf, Option.some.injEq, Prod.mk.injEq]
      constructor <;> omega
    · rfl
    · rfl
  · intro it hit
    obtain ⟨r, hr, he, hs, hw, hl⟩ := mem_tool_memory_query_none hit
    exact ⟨r, hr, he, hs, hl, hw⟩
  · intro m it hit
    obtain ⟨r, hr, he, hs, hw, hf⟩ := mem_tool_memory_query_some hit
    exact ⟨r, hr, he, hs, hf, hw⟩

/-- C2 witness: a "yesterday" query at `now = 864100` (midnight 864000)
returns a row created at 800000, inside `[777600, 864000]`, and matching
the text predicate. -/
theorem c2_time_hints_witness :
    ∃ r ∈ ([⟨1, "u", "well yesterday hello friend", none, none, 800000,
        800000⟩] : List MemoryRow),
      (⟨1, "well yesterday hello friend", none, [], 800000, 800000⟩ : MemItem) =
        memRowToItem r ∧ r.user_scope = "u" ∧
      memLike "yesterday hello" r = true ∧
      inWindow (parse_time_hints "yesterday hello" 864100) r.created_at = true :=
  (c2_time_hints ⟨[⟨1, "u", "well yesterday hello friend", none, none, 800000,
      800000⟩], [], 2⟩ "u" "yesterday hello" 5 864100).2.1
    ⟨1, "well yesterday hello friend", none, [], 800000, 800000⟩ (by decide)

/-- C2 counterexample: with `now = 864100` (so midnight UTC is 864000), a
record created exactly at 864000 is returned by a "yesterday" query — SQL
`BETWEEN` is inclusive — although the claim's half-open window
`[midnight − 24h, midnight)` excludes it (`864000 < 864000` is false). -/
theorem c2_time_hints_counterexample :
    (tool_memory_query ⟨[⟨1, "u", "done yesterday", none, none, 864000,
        864000⟩], [], 2⟩ none "u" "yesterday" 5 864100).map
      (fun it => (it.id, it.created_at)) = [(1, 864000)] ∧
    midnightOf 864100 = 864000 ∧
    ¬((864000 : Int) < 864000) := by
  refine ⟨by decide, by decide, by decide⟩

theorem allowRun_append (b : TokenBucket) (xs ys : List ℚ) :
    allowRun b (xs ++ ys) =
      ((allowRun b xs).1 ++ (allowRun (allowRun b xs).2 ys).1,
        (allowRun (allowRun b xs).2 ys).2) := by
  induction xs generalizing b with
  | nil => simp [allowRun]
  | cons t ts ih => simp [allowRun, ih]

theorem limiterRun_fst_of_some (key : String) :
    ∀ (ts : List ℚ) (rl : RateLimiter) (b : TokenBucket),
      rl.buckets key = some b → (limiterRun rl key ts).1 = (allowRun b ts).1
  | [], _, _, _ => rfl
  | t :: ts, rl, b, hb => by
    simp only [limiterRun, allowRun, RateLimiter.allow, hb]
    congr 1
    exact limiterRun_fst_of_some key ts _ _ (by simp)

theorem limiterRun_fst_init (R : ℚ) (B : Nat) (key : String) (t0 : ℚ)
    (ts : List ℚ) :
    (limiterRun (RateLimiter.init R B) key (t0 :: ts)).1 =
      (allowRun (TokenBucket.init R B t0) (t0 :: ts)).1 := by
  simp only [limiterRun, allowRun, RateLimiter.allow, RateLimiter.init]
  congr 1
  exact limiterRun_fst_of_some key ts _ _ (by simp)

theorem allow_immediate (rate cap tk t0 : ℚ) (hcap : tk ≤ cap) (h1 : 1 ≤ tk) :
    TokenBucket.allow ⟨rate, cap, tk, t0⟩ t0 1 = (true, ⟨rate, cap, tk - 1, t0⟩) := by
  unfold TokenBucket.allow
  simp only [sub_self, zero_mul, add_zero, min_eq_right hcap, if_pos h1]

theorem allow_immediate_fail (rate cap tk t0 : ℚ) (hcap : tk ≤ cap)
    (h1 : ¬ 1 ≤ tk) :
    TokenBucket.allow ⟨rate, cap, tk, t0⟩ t0 1 = (false, ⟨rate, cap, tk, t0⟩) := by
  unfold TokenBucket.allow
  simp only [sub_self, zero_mul, add_zero, min_eq_right hcap, if_neg h1]

theorem allowRun_replicate_immediate (rate cap t0 : ℚ) :
    ∀ (n : Nat) (tk : ℚ), tk ≤ cap → (n : ℚ) ≤ tk →
      allowRun ⟨rate, cap, tk, t0⟩ (List.replicate n t0) =
        (List.replicate n true, ⟨rate, cap, tk - n, t0⟩)
  | 0, tk, _, _ => by simp [allowRun]
  | n + 1, tk, hcap, hn => by
    have h1 : (1 : ℚ) ≤ tk := by
      have hle : ((n : ℚ)) + 1 ≤ tk := by push_cast at hn ⊢; linarith
      have hn0 : (0 : ℚ) ≤ (n : ℚ) := Nat.cast_nonneg n
      linarith
    have hstep := allow_immediate rate cap tk t0 hcap h1
    have hrest := allowRun_replicate_immediate rate cap t0 n (tk - 1)
      (by linarith) (by push_cast at hn ⊢; linarith)
    rw [List.replicate_succ]
    simp only [allowRun, hstep, hrest, Prod.mk.injEq, TokenBucket.mk.injEq,
      true_and, and_true]
    constructor
    · rw [List.replicate_succ]
    · push_cast
      ring

theorem cons_replicate_append {α : Type _} (a : α) :
    ∀ n, a :: List.replicate n a = List.replicate n a ++ [a]
  | 0 => rfl
  | n + 1 => by
    simp only [List.replicate_succ, List.cons_append]
    exact congrArg (a :: ·) (cons_replicate_append a n)

theorem allow_at (rate cap tk t0 t1 : ℚ) :
    TokenBucket.allow ⟨rate, cap, tk, t0⟩ t1 1 =
      (if 1 ≤ min cap (tk + (t1 - t0) * rate) then true else false,
        ⟨rate, cap,
          if 1 ≤ min cap (tk + (t1 - t0) * rate) then
            min cap (tk + (t1 - t0) * rate) - 1
          else min cap (tk + (t1 - t0) * rate), t1⟩) := by
  unfold TokenBucket.allow
  by_cases h : 1 ≤ min cap (tk + (t1 - t0) * rate)
  · simp [h]
  · simp [h]

/-- C3: each `allow` call first tops the bucket up by `elapsed * rate`
capped at capacity, then returns `true` and consumes exactly one token iff
at least 1.0 tokens are present after the top-up, else returns `false`
consuming nothing; `RateLimiter.allow` delegates to the (lazily created,
initially full) per-key bucket; and with rate 5/s, burst 15, on any key,
15 consecutive immediate calls succeed, the 16th fails, and one more call
after waiting `d ≥ 0.2` seconds succeeds. -/
theorem c3_token_bucket :
    (∀ (b : TokenBucket) (now : ℚ),
      ((b.allow now 1).1 = true ↔
        1 ≤ min b.capacity (b.tokens + (now - b.updated_at) * b.rate)) ∧
      (b.allow now 1).2.updated_at = now ∧
      (1 ≤ min b.capacity (b.tokens + (now - b.updated_at) * b.rate) →
        (b.allow now 1).2.tokens =
          min b.capacity (b.tokens + (now - b.updated_at) * b.rate) - 1) ∧
      (¬ 1 ≤ min b.capacity (b.tokens + (now - b.updated_at) * b.rate) →
        (b.allow now 1).2.tokens =
          min b.capacity (b.tokens + (now - b.updated_at) * b.rate))) ∧
    (∀ (rl : RateLimiter) (key : String) (now cost : ℚ),
      (rl.allow key now cost).1 =
        (((rl.buckets key).getD (TokenBucket.init rl.rate rl.burst now)).allow
          now cost).1) ∧
    (∀ (key : String) (t0 d : ℚ), 1 / 5 ≤ d →
      (limiterRun (RateLimiter.init 5 15) key
        (List.replicate 16 t0 ++ [t0 + d])).1 =
      List.replicate 15 true ++ [false, true]) := by
  refine ⟨?_, ?_, ?_⟩
  · intro b now
    unfold TokenBucket.allow
    by_cases h : 1 ≤ min b.capacity (b.tokens + (now - b.updated_at) * b.rate)
    · simp [h]
    · simp [h]
  · intro rl key now cost
    unfold RateLimiter.allow
    cases hb : rl.buckets key with
    | none => simp [hb, Option.getD]
    | some b => simp [hb, Option.getD]
  · intro key t0 d hd
    have hsplit : List.replicate 16 t0 ++ [t0 + d] =
        t0 :: (List.replicate 15 t0 ++ [t0 + d]) := rfl
    rw [hsplit, limiterRun_fst_init]
    have hinit : TokenBucket.init 5 15 t0 = ⟨5, 15, 15, t0⟩ := by
      unfold TokenBucket.init
      norm_num
    rw [hinit]
    have hsplit2 : (t0 :: (List.replicate 15 t0 ++ [t0 + d])) =
        (List.replicate 15 t0 ++ [t0]) ++ [t0 + d] := by
      rw [← cons_replicate_append t0 15]
      rfl
    rw [hsplit2, allowRun_append, allowRun_append]
    have hrun15 : allowRun ⟨5, 15, 15, t0⟩ (List.replicate 15 t0) =
        (List.replicate 15 true, ⟨5, 15, 0, t0⟩) := by
      have h0 := allowRun_replicate_immediate 5 15 t0 15 15 (le_refl 15)
        (by norm_num)
      rw [h0]
      norm_num
    rw [hrun15]
    have h16 : TokenBucket.allow ⟨5, 15, 0, t0⟩ t0 1 = (false, ⟨5, 15, 0, t0⟩) := by
      have h0 := allow_immediate_fail 5 15 0 t0 (by norm_num) (by norm_num)
      simpa using h0
    have hstep16 : allowRun ⟨5, 15, 0, t0⟩ [t0] = ([false], ⟨5, 15, 0, t0⟩) := by
      simp [allowRun, h16]
    rw [hstep16]
    have hmin : (1 : ℚ) ≤ min 15 ((0 : ℚ) + (t0 + d - t0) * 5) := by
      have he : (0 : ℚ) + (t0 + d - t0) * 5 = d * 5 := by ring
      rw [he]
      exact le_min (by norm_num) (by nlinarith)
    have hlast : (TokenBucket.allow ⟨5, 15, 0, t0⟩ (t0 + d) 1).1 = true := by
      rw [allow_at, if_pos hmin]
    have hsteplast : (allowRun ⟨5, 15, 0, t0⟩ [t0 + d]).1 = [true] := by
      simp [allowRun, hlast]
    rw [hsteplast]
    simp

/-- C3 witness: the scenario at key "k", `t0 = 0`, `d = 1/5`, and the
per-call characterization at a concrete bucket. -/
theorem c3_token_bucket_witness :
    ((1 : ℚ) / 5 ≤ 1 / 5) ∧
    (limiterRun (RateLimiter.init 5 15) "k"
      (List.replicate 16 (0 : ℚ) ++ [0 + 1 / 5])).1 =
      List.replicate 15 true ++ [false, true] ∧
    ((TokenBucket.allow ⟨5, 15, 3, 0⟩ 0 1).1 = true) := by
  refine ⟨le_refl _, c3_token_bucket.2.2 "k" 0 (1 / 5) (le_refl _), ?_⟩
  refine ((c3_token_bucket.1 ⟨5, 15, 3, 0⟩ 0).1).2 ?_
  norm_num

theorem linkOverwrite_key (u l : String) (t b s : Option String)
    (tg : Option String) (c : String) (wc rm : Nat) (now : Int) (r : LinkRow) :
    linkKeyHit u l (linkOverwrite t b s tg c wc rm now r) = linkKeyHit u l r := rfl

theorem find?_map_hit {u l : String} (f : LinkRow → LinkRow)
    (hf : ∀ r, linkKeyHit u l (f r) = linkKeyHit u l r) :
    ∀ rows : List LinkRow,
      (rows.map (fun r => if linkKeyHit u l r then f r else r)).find?
        (linkKeyHit u l) = (rows.find? (linkKeyHit u l)).map f
  | [] => rfl
  | r :: rows => by
    by_cases hr : linkKeyHit u l r = true
    · simp only [List.map_cons]
      rw [if_pos hr, List.find?_cons_of_pos _ (by rw [hf r]; exact hr),
        List.find?_cons_of_pos _ hr]
      rfl
    · simp only [List.map_cons]
      rw [if_neg hr, List.find?_cons_of_neg _ (by rwa [Bool.not_eq_true] at hr ⊢),
        List.find?_cons_of_neg _ (by rwa [Bool.not_eq_true] at hr ⊢)]
      exact find?_map_hit f hf rows

theorem find?_append_of_none {α : Type _} {p : α → Bool} {l1 l2 : List α}
    (h : l1.find? p = none) : (l1 ++ l2).find? p = l2.find? p := by
  rw [List.find?_append, h]
  rfl

/-- The shape of one `tool_link_save` on a non-empty URL: the returned id
is that of the unique `(user_scope, url)` row, whose content fields hold
the freshly extracted values; the id and `created_at` come from the
pre-existing row when there was a conflict and are fresh otherwise; and
`(user_scope, url)` uniqueness is preserved. -/
theorem link_save_shape (db : LinkDB) (scope url : String)
    (tags : Option (List String)) (hint : Option String) (ext : Extracted)
    (now : Int) (ftsOk : Bool) (db2 : LinkDB) (res : Option Nat)
    (hurl : url ≠ "")
    (hsave : tool_link_save db scope url tags hint ext now ftsOk =
      .ok (db2, res)) :
    ∃ row, res = some row.id ∧
      db2.rows.find? (linkKeyHit scope url) = some row ∧
      row.user_scope = scope ∧ row.url = url ∧
      row.title = pyOrStr hint ext.title ∧ row.byline = ext.byline ∧
      row.site_name = ext.site_name ∧ row.tags = tags_to_str tags ∧
      row.content = some (ext.content.getD "") ∧
      row.word_count = count_words (ext.content.getD "") ∧
      row.reading_minutes = estimate_reading_minutes (count_words (ext.content.getD "")) ∧
      row.updated_at = now ∧
      (match db.rows.find? (linkKeyHit scope url) with
        | some old => row.id = old.id ∧ row.created_at = old.created_at
        | none => row.id = db.next_id ∧ row.created_at = now) ∧
      (linksUnique db.rows → linksUnique db2.rows) := by
  simp only [tool_link_save] at hsave
  rw [if_neg hurl] at hsave
  by_cases hc : db.rows.any (linkKeyHit scope url) = true
  · -- conflict: the existing row is overwritten in place
    cases hfo : db.rows.find? (linkKeyHit scope url) with
    | none =>
      obtain ⟨a, ha, hpa⟩ := List.any_eq_true.1 hc
      exact absurd hpa (by
        have hne := List.find?_eq_none.1 hfo a ha
        simpa using hne)
    | some old =>
      have hkey : old.user_scope = scope ∧ old.url = url := by
        have hps := List.find?_some hfo
        simpa [linkKeyHit] using hps
      have hmap := find?_map_hit
        (linkOverwrite (pyOrStr hint ext.title) ext.byline ext.site_name
          (tags_to_str tags) (ext.content.getD "")
          (count_words (ext.content.getD ""))
          (estimate_reading_minutes (count_words (ext.content.getD ""))) now)
        (fun r => linkOverwrite_key scope url _ _ _ _ _ _ _ _ r) db.rows
      rw [hfo, Option.map_some'] at hmap
      rw [if_pos hc, if_pos hc, hmap] at hsave
      simp only [Except.ok.injEq, Prod.mk.injEq] at hsave
      obtain ⟨hdb2, hres⟩ := hsave
      subst hdb2
      subst hres
      refine ⟨linkOverwrite (pyOrStr hint ext.title) ext.byline ext.site_name
        (tags_to_str tags) (ext.content.getD "")
        (count_words (ext.content.getD ""))
        (estimate_reading_minutes (count_words (ext.content.getD ""))) now old,
        rfl, hmap, hkey.1, hkey.2, rfl, rfl, rfl, rfl, rfl, rfl, rfl, rfl,
        ?_, ?_⟩
      · exact ⟨rfl, rfl⟩
      · intro hu
        unfold linksUnique at hu ⊢
        rw [List.pairwise_map]
        refine hu.imp ?_
        intro a b hab hand
        apply hab
        by_cases hhita : linkKeyHit scope url a = true <;>
          by_cases hhitb : linkKeyHit scope url b = true <;>
          simp only [hhita, hhitb, if_true, if_false, linkOverwrite] at hand <;>
          exact hand
  · -- no conflict: a fresh row is appended
    have hnone : db.rows.find? (linkKeyHit scope url) = none := by
      rw [List.find?_eq_none]
      intro a ha
      have hfa := List.any_eq_false.1 (by simpa using hc) a ha
      simpa using hfa
    have hfreshhit : linkKeyHit scope url
        (LinkRow.mk db.next_id scope url (pyOrStr hint ext.title) ext.byline
          ext.site_name (tags_to_str tags) (some (ext.content.getD ""))
          (count_words (ext.content.getD ""))
          (estimate_reading_minutes (count_words (ext.content.getD ""))) now now
          none none) = true := by
      simp [linkKeyHit]
    have happ : (db.rows ++ [LinkRow.mk db.next_id scope url
        (pyOrStr hint ext.title) ext.byline ext.site_name (tags_to_str tags)
        (some (ext.content.getD "")) (count_words (ext.content.getD ""))
        (estimate_reading_minutes (count_words (ext.content.getD ""))) now now
        none none]).find? (linkKeyHit scope url) =
        some (LinkRow.mk db.next_id scope url (pyOrStr hint ext.title) ext.byline
          ext.site_name (tags_to_str tags) (some (ext.content.getD ""))
          (count_words (ext.content.getD ""))
          (estimate_reading_minutes (count_words (ext.content.getD ""))) now now
          none none) := by
      rw [find?_append_of_none hnone]
      exact List.find?_cons_of_pos _ hfreshhit
    rw [if_neg hc, if_neg hc, happ] at hsave
    simp only [Except.ok.injEq, Prod.mk.injEq] at hsave
    obtain ⟨hdb2, hres⟩ := hsave
    subst hdb2
    subst hres
    refine ⟨LinkRow.mk db.next_id scope url (pyOrStr hint ext.title) ext.byline
      ext.site_name (tags_to_str tags) (some (ext.content.getD ""))
      (count_words (ext.content.getD ""))
      (estimate_reading_minutes (count_words (ext.content.getD ""))) now now
      none none, rfl, happ, rfl, rfl, rfl, rfl, rfl, rfl, rfl, rfl, rfl, rfl,
      ?_, ?_⟩
    · rw [hnone]
      exact ⟨rfl, rfl⟩
    · intro hu
      unfold linksUnique at hu ⊢
      rw [List.pairwise_append]
      refine ⟨hu, List.pairwise_singleton _ _, ?_⟩
      intro a ha b hb hand
      have hb1 : b = LinkRow.mk db.next_id scope url (pyOrStr hint ext.title)
          ext.byline ext.site_name (tags_to_str tags)
          (some (ext.content.getD "")) (count_words (ext.content.getD ""))
          (estimate_reading_minutes (count_words (ext.content.getD ""))) now now
          none none := by simpa using hb
      subst hb1
      have hfa2 : ¬(a.user_scope = scope ∧ a.url = url) := by
        have hfa := List.any_eq_false.1 (by simpa using hc) a ha
        simpa [linkKeyHit] using hfa
      exact hfa2 hand

/-- C4: saving a link whose URL already exists for the same `user_scope`
overwrites the content fields (title, byline, site_name, tags, content,
word_count, reading_minutes) and `updated_at`, but preserves the record's
`id` and `created_at`; `(user_scope, url)` uniqueness holds throughout, and
saving the same URL twice returns the same id both times. -/
theorem c4_link_upsert (db db1 db2 : LinkDB) (scope url : String)
    (tags1 tags2 : Option (List String)) (hint1 hint2 : Option String)
    (ext1 ext2 : Extracted) (now1 now2 : Int) (fts1 fts2 : Bool)
    (r1 r2 : Option Nat)
    (hurl : url ≠ "")
    (huniq : linksUnique db.rows)
    (h1 : tool_link_save db scope url tags1 hint1 ext1 now1 fts1 = .ok (db1, r1))
    (h2 : tool_link_save db1 scope url tags2 hint2 ext2 now2 fts2 = .ok (db2, r2)) :
    ∃ i, r1 = some i ∧ r2 = some i ∧
      linksUnique db1.rows ∧ linksUnique db2.rows ∧
      ∃ row ∈ db2.rows, row.id = i ∧ row.user_scope = scope ∧ row.url = url ∧
        row.title = pyOrStr hint2 ext2.title ∧ row.byline = ext2.byline ∧
        row.site_name = ext2.site_name ∧ row.tags = tags_to_str tags2 ∧
        row.content = some (ext2.content.getD "") ∧
        row.word_count = count_words (ext2.content.getD "") ∧
        row.reading_minutes =
          estimate_reading_minutes (count_words (ext2.content.getD "")) ∧
        row.updated_at = now2 ∧
        (db1.rows.find? (linkKeyHit scope url)).map LinkRow.created_at =
          some row.created_at := by
  obtain ⟨row1, hres1, hfind1, _, _, _, _, _, _, _, _, _, _, hmatch1, huq1⟩ :=
    link_save_shape db scope url tags1 hint1 ext1 now1 fts1 db1 r1 hurl h1
  obtain ⟨row2, hres2, hfind2, hsc2, hurl2, ht2, hb2, hs2, htg2, hc2, hwc2, hrm2,
    hud2, hmatch2, huq2⟩ :=
    link_save_shape db1 scope url tags2 hint2 ext2 now2 fts2 db2 r2 hurl h2
  rw [hfind1] at hmatch2
  obtain ⟨hid21, hca21⟩ := hmatch2
  refine ⟨row1.id, hres1, ?_, huq1 huniq, huq2 (huq1 huniq), row2,
    List.mem_of_find?_eq_some hfind2, hid21, hsc2, hurl2, ht2, hb2, hs2, htg2,
    hc2, hwc2, hrm2, hud2, ?_⟩
  · rw [hres2, hid21]
  · rw [hfind1, Option.map_some']
    exact congrArg some hca21.symm

/-- C4 witness: saving the same URL twice on a fresh store. -/
theorem c4_link_upsert_witness :
    ∃ db1 r1 db2 r2,
      tool_link_save ⟨[], [], 1⟩ "u" "https://e.com" (some ["t"]) none
        ⟨some "T1", none, none, some "hello world"⟩ 0 true = .ok (db1, r1) ∧
      tool_link_save db1 "u" "https://e.com" none (some "Hint")
        ⟨some "T2", some "By", none, some "fresh text here"⟩ 5 true =
        .ok (db2, r2) ∧
      ∃ i, r1 = some i ∧ r2 = some i ∧
        linksUnique db1.rows ∧ linksUnique db2.rows ∧
        ∃ row ∈ db2.rows, row.id = i ∧ row.user_scope = "u" ∧
          row.url = "https://e.com" ∧
          row.title = pyOrStr (some "Hint") (some "T2") ∧
          row.byline = some "By" ∧ row.site_name = none ∧
          row.tags = tags_to_str none ∧
          row.content = some "fresh text here" ∧
          row.word_count = count_words "fresh text here" ∧
          row.reading_minutes =
            estimate_reading_minutes (count_words "fresh text here") ∧
          row.updated_at = 5 ∧
          (db1.rows.find? (linkKeyHit "u" "https://e.com")).map LinkRow.created_at =
            some row.created_at := by
  refine ⟨_, _, _, _, rfl, rfl, ?_⟩
  exact c4_link_upsert ⟨[], [], 1⟩ _ _ "u" "https://e.com" (some ["t"]) none none
    (some "Hint") ⟨some "T1", none, none, some "hello world"⟩
    ⟨some "T2", some "By", none, some "fresh text here"⟩ 0 5 true true _ _
    (by decide) List.Pairwise.nil rfl rfl

theorem toolFor_mem {tools : List (String × Tool)} {v : Jv} {t : Tool}
    (h : toolFor tools v = some t) : ∃ nm, (nm, t) ∈ tools := by
  cases v with
  | s n =>
    simp only [toolFor] at h
    cases hf : tools.find? (fun e => e.1 = n) with
    | none => rw [hf] at h; exact absurd h (by simp)
    | some e =>
      rw [hf] at h
      have he : e.2 = t := by simpa using h
      refine ⟨e.1, ?_⟩
      rw [← he]
      simpa using List.mem_of_find?_eq_some hf
  | null => exact Option.noConfusion h
  | b v => exact Option.noConfusion h
  | n v => exact Option.noConfusion h
  | arr v => exact Option.noConfusion h
  | obj v => exact Option.noConfusion h

theorem respOk_error (freshId : String) (eid : Jv) (st : Nat) (code : Int)
    (msg : String) (hst : st ≠ 429) :
    respOk freshId eid ⟨st, freshId, eid, none, some ⟨code, msg, some freshId⟩⟩ := by
  refine ⟨rfl, rfl, fun _ => ?_, fun h => absurd h hst⟩
  simp [bodyHasReqId]

theorem respOk_result (freshId : String) (eid : Jv) (st : Nat)
    (fs : List (String × Jv)) (hfs : jgetStr fs "request_id" = some (.s freshId))
    (hst : st ≠ 429) :
    respOk freshId eid ⟨st, freshId, eid, some fs, none⟩ := by
  refine ⟨rfl, rfl, fun _ => ?_, fun h => absurd h hst⟩
  simp [bodyHasReqId, hfs]

theorem respOk_429 (freshId : String) (eid : Jv) :
    respOk freshId eid ⟨429, freshId, eid, none,
      some ⟨-32001, "Rate limit exceeded", none⟩⟩ := by
  refine ⟨rfl, rfl, fun h => absurd rfl h, fun _ => ⟨rfl, ?_⟩⟩
  simp [bodyHasReqId]

/-- C1 (amended): for every request past authentication for which the
gateway itself produces the response (a valid-JSON non-object body, or a
truthy non-object `arguments` value reaching user-scope resolution without
a header-supplied user id, instead escape as unhandled errors), the fresh
request id is the `x-request-id` header value, the caller's JSON-RPC `id`
is merely echoed, and the fresh id also appears inside the body — merged
into `result` on success, in `error.data` on errors — in every branch
except the 429 rate-limit response, whose body omits it (only the header
carries it there). -/
theorem c1_request_id (tools : List (String × Tool)) (freshId : String)
    (xUserId : Option String) (rateAllowed : Bool) (body : ParsedBody)
    (resp : HttpResponse)
    (hclean : ∀ nm tl, (nm, tl) ∈ tools → ∀ scope args res,
      tl.handler scope args = .ok res → jgetStr res "request_id" = none)
    (hresp : mcp_endpoint tools freshId xUserId rateAllowed body = some resp) :
    respOk freshId (echoedId body) resp := by
  cases body with
  | parseError =>
    obtain rfl := Option.some.inj hresp
    exact respOk_error _ _ _ _ _ (by decide)
  | nonObject => exact Option.noConfusion hresp
  | shapeError i =>
    obtain rfl := Option.some.inj hresp
    exact respOk_error _ _ _ _ _ (by decide)
  | rpc ver method i params =>
    simp only [mcp_endpoint] at hresp
    by_cases hver : ver ≠ "2.0"
    · rw [if_pos hver] at hresp
      obtain rfl := Option.some.inj hresp
      exact respOk_error _ _ _ _ _ (by decide)
    · rw [if_neg hver] at hresp
      cases rateAllowed with
      | false =>
        rw [if_pos (by decide)] at hresp
        obtain rfl := Option.some.inj hresp
        exact respOk_429 _ _
      | true =>
        rw [if_neg (by decide)] at hresp
        by_cases hlist : method = "tools/list"
        · rw [if_pos hlist] at hresp
          obtain rfl := Option.some.inj hresp
          exact respOk_result _ _ _ _ rfl (by decide)
        · rw [if_neg hlist] at hresp
          by_cases hcall : method = "tools/call"
          · rw [if_pos hcall] at hresp
            cases params with
            | none =>
              obtain rfl := Option.some.inj hresp
              exact respOk_error _ _ _ _ _ (by decide)
            | some p =>
              have hresp2 : mcp_call tools freshId xUserId i p = some resp := hresp
              unfold mcp_call at hresp2
              split at hresp2
              · rename_i nameV argsV hn ha
                split at hresp2
                · obtain rfl := Option.some.inj hresp2
                  exact respOk_error _ _ _ _ _ (by decide)
                · rename_i tool ht
                  simp only [] at hresp2
                  split at hresp2
                  · exact Option.noConfusion hresp2
                  · rename_i scope hs
                    split at hresp2
                    · rename_i res hh
                      obtain rfl := Option.some.inj hresp2
                      obtain ⟨nm, hnm⟩ := toolFor_mem ht
                      have hno := hclean nm tool hnm scope (pyOrEmptyObj argsV)
                        res hh
                      refine respOk_result _ _ _ _ ?_ (by decide)
                      unfold mergeReqId
                      rw [hno]
                      simp [jgetStr]
                    · rename_i e he
                      obtain rfl := Option.some.inj hresp2
                      exact respOk_error _ _ _ _ _ (by decide)
              · obtain rfl := Option.some.inj hresp2
                exact respOk_error _ _ _ _ _ (by decide)
          · rw [if_neg hcall] at hresp
            by_cases hping : method = "ping"
            · rw [if_pos hping] at hresp
              obtain rfl := Option.some.inj hresp
              exact respOk_result _ _ _ _ rfl (by decide)
            · rw [if_neg hping] at hresp
              obtain rfl := Option.some.inj hresp
              exact respOk_error _ _ _ _ _ (by decide)

/-- C1 witness: a ping request through the gateway with an empty registry. -/
theorem c1_request_id_witness :
    respOk "r1" (Jv.s "cid")
      ⟨200, "r1", Jv.s "cid",
        some [("request_id", Jv.s "r1"), ("pong", Jv.b true)], none⟩ := by
  have h := c1_request_id [] "r1" none true
    (ParsedBody.rpc "2.0" "ping" (Jv.s "cid") none)
    ⟨200, "r1", Jv.s "cid",
      some [("request_id", Jv.s "r1"), ("pong", Jv.b true)], none⟩
    (fun nm tl hmem => absurd hmem (by simp)) rfl
  exact h

/-- C1 counterexample: a rate-limited request gets the fresh id in the
`x-request-id` header, but its JSON-RPC body (the `-32001` error) carries
no request id at all — `error.data` is absent — contradicting the claim
that the id is embedded in the body in every error branch including 429. -/
theorem c1_request_id_counterexample :
    (mcp_endpoint [] "r1" none false
      (ParsedBody.rpc "2.0" "ping" (Jv.s "cid") none)).map
      (fun r => (r.status, r.xRequestId, bodyHasReqId r "r1")) =
      some (429, "r1", false) ∧
    (mcp_endpoint [] "r1" none false
      (ParsedBody.rpc "2.0" "ping" (Jv.s "cid") none)).map
      (fun r => r.error) =
      some (some ⟨-32001, "Rate limit exceeded", none⟩) := by
  exact ⟨rfl, rfl⟩

/-- C8: the field limits are checked before any persistence write — a
violating `memory_store` or `memory_update` returns the validation error
with the store untouched (the embedding only produces a successor state on
`ok`, and the source calls `validate_memory_fields` before opening a
cursor) — and the gateway surfaces a handler-raised error as an HTTP 500
carrying a `-32000` tool error, not a transport error. -/
theorem c8_validation_before_write (db : MemDB) (scope : String)
    (content : Option String) (tags : Option (List String))
    (context : Option String) (now : Int) (ftsOk : Bool) (msg : String)
    (mid : Nat)
    (hval : validate_memory_fields content tags context = .error msg) :
    (∀ c, content = some c →
      tool_memory_store db scope c tags context now ftsOk = .error msg) ∧
    tool_memory_update db scope mid content tags context now ftsOk =
      .error msg ∧
    (∀ (tools : List (String × Tool)) (freshId : String)
      (xUserId : Option String) (i : Jv) (p : List (String × Jv))
      (nameV argsV : Jv) (tool : Tool) (scope2 : String) (e : String),
      jgetStr p "name" = some nameV → jgetStr p "arguments" = some argsV →
      toolFor tools nameV = some tool →
      get_user_scope xUserId (pyOrEmptyObj argsV) = .ok scope2 →
      tool.handler scope2 (pyOrEmptyObj argsV) = .error e →
      mcp_endpoint tools freshId xUserId true
        (ParsedBody.rpc "2.0" "tools/call" i (some p)) =
        some ⟨500, freshId, i, none,
          some ⟨-32000, "Tool execution error: " ++ e, some freshId⟩⟩) := by
  refine ⟨?_, ?_, ?_⟩
  · intro c hc
    subst hc
    unfold tool_memory_store
    rw [hval]
  · unfold tool_memory_update
    rw [hval]
  · intro tools freshId xUserId i p nameV argsV tool scope2 e hn ha ht hs hh
    show mcp_call tools freshId xUserId i p = _
    unfold mcp_call
    rw [hn, ha]
    simp only []
    rw [ht]
    simp only []
    rw [hs]
    simp only []
    rw [hh]

/-- C8 witness: blank content is rejected by store and update with the
store unchanged, and the error surfaces through the gateway as `-32000`
when the registry handler wraps the same store call. -/
theorem c8_validation_before_write_witness :
    tool_memory_store ⟨[], [], 1⟩ "u" "" none none 0 true =
      .error "content must be a non-empty string" ∧
    tool_memory_update ⟨[], [], 1⟩ "u" 1 (some "") none none 0 true =
      .error "content must be a non-empty string" ∧
    mcp_endpoint [("memory_store", ⟨"", Jv.obj [], fun scope _ =>
        (tool_memory_store ⟨[], [], 1⟩ scope "" none none 0 true).map
          (fun _ => [])⟩)] "r1" none true
      (ParsedBody.rpc "2.0" "tools/call" Jv.null
        (some [("name", Jv.s "memory_store"), ("arguments", Jv.obj [])])) =
      some ⟨500, "r1", Jv.null, none,
        some ⟨-32000,
          "Tool execution error: " ++ "content must be a non-empty string",
          some "r1"⟩⟩ := by
  have h := c8_validation_before_write ⟨[], [], 1⟩ "u" (some "") none none 0 true
    "content must be a non-empty string" 1 rfl
  refine ⟨h.1 "" rfl, h.2.1, ?_⟩
  exact h.2.2 [("memory_store", ⟨"", Jv.obj [], fun scope _ =>
      (tool_memory_store ⟨[], [], 1⟩ scope "" none none 0 true).map
        (fun _ => [])⟩)] "r1" none Jv.null
    [("name", Jv.s "memory_store"), ("arguments", Jv.obj [])]
    (Jv.s "memory_store") (Jv.obj []) ⟨"", Jv.obj [], fun scope _ =>
      (tool_memory_store ⟨[], [], 1⟩ scope "" none none 0 true).map
        (fun _ => [])⟩ "default" "content must be a non-empty string"
    rfl rfl rfl rfl rfl
